import Mathlib

/-!
Shallow embedding of the Mudrex trade-ideas signal bot
(`src/signal_bot/broadcaster.py`, `src/signal_bot/trade_executor.py`).

Numeric values are modelled with `ℚ`; Python `decimal.Decimal` objects are
modelled by a coefficient/exponent pair (`Dec`).  IEEE-754 binary floating
point is not modelled: where the source converts a float to a decimal via
`Decimal(str(x))`, the embedding receives that decimal directly, and every
concrete instance supplies exactly the decimal the Python run produces
(checked against CPython semantics).  External API calls (the Mudrex SDK
client and the database) are modelled as oracle environments of `Except`
outcomes, and each mutating call is recorded in an event trace.
-/

namespace SignalBot

/-! ### Python `decimal.Decimal` -/

/-- A Python `Decimal`: a signed coefficient `m` and a power-of-ten
exponent `e`, denoting `m * 10 ^ e`. -/
structure Dec where
  m : ℤ
  e : ℤ
deriving DecidableEq, Repr

/-- The rational value of a decimal. -/
def Dec.val (d : Dec) : ℚ := (d.m : ℚ) * 10 ^ d.e

/-- Truncation toward zero (`decimal.ROUND_DOWN`). -/
def truncQ (x : ℚ) : ℤ := if 0 ≤ x then ⌊x⌋ else ⌈x⌉

/-- The rounding arithmetic of `Decimal.quantize(step, rounding=ROUND_DOWN)`:
round the value to the target exponent `e` (the exponent of the step
decimal — Python quantize uses only the step's exponent, not its value),
truncating toward zero.  `Dec.quantizeDownCtx` further down adds the
default decimal context's precision trap, which this arithmetic-level
function omits. -/
def Dec.quantizeDown (d : Dec) (e : ℤ) : Dec := ⟨truncQ (d.val * 10 ^ (-e)), e⟩

/-- Python `max(a, b)` on decimals: returns `b` exactly when `b > a`. -/
def decMax (a b : Dec) : Dec := if a.val < b.val then b else a

/-- Python `min(a, b)` on decimals: returns `b` exactly when `b < a`. -/
def decMin (a b : Dec) : Dec := if b.val < a.val then b else a

/-- `min` against an optional upper bound, `none` standing for
`Decimal('Infinity')` (the `float('inf')` default of `max_quantity`). -/
def decMinOpt (a : Option Dec) (b : Dec) : Dec :=
  match a with
  | none => b
  | some a => decMin a b

/-! ### Decimal fixed-point formatting and string evaluation

Models `f"{qty:f}".rstrip('0').rstrip('.')` from
`calculate_quantity_from_usd`, and Python `float(...)` parsing of the
resulting digit string. -/

/-- The character of a single decimal digit. -/
def digitChar (d : ℕ) : Char := Char.ofNat (48 + d)

/-- Little-endian digit extraction with explicit fuel (structural recursion
so that concrete instances evaluate in the kernel). -/
def natDigitsLEAux : ℕ → ℕ → List ℕ
  | 0, _ => []
  | fuel + 1, n => if n = 0 then [] else (n % 10) :: natDigitsLEAux fuel (n / 10)

/-- Little-endian digits of a natural number (`[]` for zero). -/
def natDigitsLE (n : ℕ) : List ℕ := natDigitsLEAux n n

/-- Big-endian digits of a natural number (`[0]` for zero). -/
def digitsBE (n : ℕ) : List ℕ :=
  if n = 0 then [0] else (natDigitsLE n).reverse

/-- Decimal digit characters of a natural number, most significant first. -/
def natChars (n : ℕ) : List Char := (digitsBE n).map digitChar

/-- Left-pad a digit string with zeros to length `k`. -/
def padLeft (k : ℕ) (cs : List Char) : List Char :=
  List.replicate (k - cs.length) '0' ++ cs

/-- Python fixed-point formatting `f"{d:f}"` of a decimal (CPython prints
the coefficient digits with the decimal point inserted per the exponent;
a zero coefficient with nonnegative exponent prints as a bare zero). -/
def Dec.fmtF (d : Dec) : List Char :=
  let n := d.m.natAbs
  let sign : List Char := if d.m < 0 then ['-'] else []
  if 0 ≤ d.e then
    if n = 0 then sign ++ ['0']
    else sign ++ natChars n ++ List.replicate d.e.toNat '0'
  else
    let k := (-d.e).toNat
    sign ++ natChars (n / 10 ^ k) ++ '.' :: padLeft k (natChars (n % 10 ^ k))

/-- Python `str.rstrip(c)`: drop every trailing occurrence of `c`. -/
def rstrip (c : Char) (cs : List Char) : List Char :=
  (cs.reverse.dropWhile (· = c)).reverse

/-- The `.rstrip('0').rstrip('.')` suffix cleanup from the source. -/
def stripZerosDot (cs : List Char) : List Char := rstrip '.' (rstrip '0' cs)

/-- Evaluate a digit string as a natural number (the fold Python `int`
or `float` performs on each side of the decimal point). -/
def evalDigitsN (cs : List Char) : ℕ :=
  cs.foldl (fun a c => 10 * a + (c.toNat - 48)) 0

/-- Numeric value of a decimal string: integer part plus fractional part
scaled by its length (models Python `float` on a plain digit string). -/
def strVal (s : String) : ℚ :=
  let ip := s.data.takeWhile (fun c => c ≠ '.')
  let fp := (s.data.dropWhile (fun c => c ≠ '.')).drop 1
  (evalDigitsN ip : ℚ) + (evalDigitsN fp : ℚ) / 10 ^ fp.length

/-! ### Digit-string lemmas -/

lemma digitChar_toNat {d : ℕ} (h : d < 10) : (digitChar d).toNat = 48 + d := by
  interval_cases d <;> decide

lemma digitChar_ne_dot {d : ℕ} (h : d < 10) : digitChar d ≠ '.' := by
  interval_cases d <;> decide

lemma digitChar_ne_zero_iff {d : ℕ} (h : d < 10) : digitChar d ≠ '0' ↔ d ≠ 0 := by
  interval_cases d <;> decide

lemma natDigitsLEAux_congr : ∀ n f g, n ≤ f → n ≤ g →
    natDigitsLEAux f n = natDigitsLEAux g n := by
  intro n
  induction n using Nat.strong_induction_on with
  | _ n ih =>
    intro f g hf hg
    match f, g with
    | 0, 0 => rfl
    | 0, g + 1 =>
      have hn : n = 0 := by omega
      subst hn
      rfl
    | f + 1, 0 =>
      have hn : n = 0 := by omega
      subst hn
      rfl
    | f + 1, g + 1 =>
      by_cases hn : n = 0
      · subst hn
        rfl
      · simp only [natDigitsLEAux, if_neg hn]
        congr 1
        have hdiv : n / 10 < n := Nat.div_lt_self (Nat.pos_of_ne_zero hn) (by norm_num)
        exact ih (n / 10) hdiv f g (by omega) (by omega)

lemma natDigitsLE_unfold (n : ℕ) :
    natDigitsLE n = if n = 0 then [] else (n % 10) :: natDigitsLE (n / 10) := by
  by_cases hn : n = 0
  · subst hn
    rfl
  · cases n with
    | zero => exact absurd rfl hn
    | succ k =>
      rw [if_neg hn, natDigitsLE, natDigitsLE]
      show (if k + 1 = 0 then [] else (k + 1) % 10 :: natDigitsLEAux k ((k + 1) / 10)) = _
      rw [if_neg hn]
      congr 1
      have hdiv : (k + 1) / 10 < k + 1 := Nat.div_lt_self (by omega) (by norm_num)
      exact natDigitsLEAux_congr ((k + 1) / 10) k ((k + 1) / 10) (by omega) le_rfl

lemma natDigitsLE_lt (n : ℕ) : ∀ d ∈ natDigitsLE n, d < 10 := by
  induction n using Nat.strong_induction_on with
  | _ n ih =>
    rw [natDigitsLE_unfold]
    split
    · simp
    · rename_i h
      intro d hd
      rcases List.mem_cons.mp hd with h1 | h2
      · subst h1; exact Nat.mod_lt _ (by norm_num)
      · exact ih (n / 10) (Nat.div_lt_self (Nat.pos_of_ne_zero h) (by norm_num)) d h2

lemma digitsBE_lt (n : ℕ) : ∀ d ∈ digitsBE n, d < 10 := by
  unfold digitsBE
  split
  · simp
  · intro d hd
    exact natDigitsLE_lt n d (List.mem_reverse.mp hd)

/-- Evaluate a big-endian list of digits. -/
def evalD (ds : List ℕ) : ℕ := ds.foldl (fun a d => 10 * a + d) 0

lemma evalD_from (ds : List ℕ) : ∀ a : ℕ,
    ds.foldl (fun a d => 10 * a + d) a = a * 10 ^ ds.length + evalD ds := by
  induction ds with
  | nil => intro a; simp [evalD]
  | cons d ds ih =>
    intro a
    simp only [List.foldl_cons, List.length_cons, evalD]
    rw [ih (10 * a + d), ih (10 * 0 + d)]
    ring

lemma evalD_append_single (ds : List ℕ) (d : ℕ) :
    evalD (ds ++ [d]) = 10 * evalD ds + d := by
  simp only [evalD, List.foldl_append, List.foldl_cons, List.foldl_nil]

lemma evalD_reverse_natDigitsLE (n : ℕ) : evalD (natDigitsLE n).reverse = n := by
  induction n using Nat.strong_induction_on with
  | _ n ih =>
    rw [natDigitsLE_unfold]
    split
    · rename_i h; simp [evalD, h]
    · rename_i h
      rw [List.reverse_cons, evalD_append_single,
        ih (n / 10) (Nat.div_lt_self (Nat.pos_of_ne_zero h) (by norm_num))]
      omega

lemma evalD_digitsBE (n : ℕ) : evalD (digitsBE n) = n := by
  unfold digitsBE
  split
  · rename_i h; simp [evalD, h]
  · exact evalD_reverse_natDigitsLE n

lemma evalDigitsN_map_digitChar (ds : List ℕ) (h : ∀ d ∈ ds, d < 10) :
    evalDigitsN (ds.map digitChar) = evalD ds := by
  suffices hgen : ∀ a : ℕ, (ds.map digitChar).foldl (fun a c => 10 * a + (c.toNat - 48)) a =
      ds.foldl (fun a d => 10 * a + d) a by
    exact hgen 0
  induction ds with
  | nil => intro a; simp
  | cons d ds ih =>
    intro a
    simp only [List.map_cons, List.foldl_cons]
    rw [digitChar_toNat (h d (List.mem_cons_self d ds))]
    have : 48 + d - 48 = d := by omega
    rw [this]
    exact ih (fun x hx => h x (List.mem_cons_of_mem d hx)) (10 * a + d)

lemma evalDigitsN_natChars (n : ℕ) : evalDigitsN (natChars n) = n := by
  rw [natChars, evalDigitsN_map_digitChar _ (digitsBE_lt n), evalD_digitsBE]

lemma evalDigitsN_from (cs : List Char) : ∀ a : ℕ,
    cs.foldl (fun a c => 10 * a + (c.toNat - 48)) a = a * 10 ^ cs.length + evalDigitsN cs := by
  induction cs with
  | nil => intro a; simp [evalDigitsN]
  | cons c cs ih =>
    intro a
    simp only [List.foldl_cons, List.length_cons, evalDigitsN]
    rw [ih (10 * a + (c.toNat - 48)), ih (10 * 0 + (c.toNat - 48))]
    ring

lemma evalDigitsN_append (xs ys : List Char) :
    evalDigitsN (xs ++ ys) = evalDigitsN xs * 10 ^ ys.length + evalDigitsN ys := by
  simp only [evalDigitsN, List.foldl_append]
  exact evalDigitsN_from ys _

lemma evalDigitsN_replicate_zero (z : ℕ) :
    evalDigitsN (List.replicate z '0') = 0 := by
  induction z with
  | zero => simp [evalDigitsN]
  | succ z ih =>
    rw [List.replicate_succ]
    show List.foldl _ (10 * 0 + ('0'.toNat - 48)) _ = 0
    have h : 10 * 0 + ('0'.toNat - 48) = 0 := by decide
    rw [h]
    exact ih

/-! ### `rstrip` lemmas -/

lemma rstrip_decomp (c : Char) (cs : List Char) :
    ∃ z, cs = rstrip c cs ++ List.replicate z c := by
  refine ⟨(cs.reverse.takeWhile (· = c)).length, ?_⟩
  have hsplit := List.takeWhile_append_dropWhile (p := (· = c)) (l := cs.reverse)
  have hrep : cs.reverse.takeWhile (· = c) =
      List.replicate (cs.reverse.takeWhile (· = c)).length c := by
    apply List.eq_replicate_of_mem
    intro b hb
    have := List.mem_takeWhile_imp hb
    simpa using this
  conv_lhs => rw [← cs.reverse_reverse, ← hsplit]
  rw [List.reverse_append, rstrip]
  congr 1
  conv_lhs => rw [hrep]
  rw [List.reverse_replicate]

lemma rstrip_getLast_ne (c : Char) (cs : List Char) :
    ∀ x, (rstrip c cs).getLast? = some x → x ≠ c := by
  intro x hx
  rw [rstrip, List.getLast?_reverse] at hx
  have h := List.head?_dropWhile_not (· = c) cs.reverse
  rw [hx] at h
  simpa using h

lemma rstrip_eq_self (c : Char) (cs : List Char)
    (h : ∀ x, cs.getLast? = some x → x ≠ c) : rstrip c cs = cs := by
  rw [rstrip]
  cases hrev : cs.reverse with
  | nil =>
    have : cs = [] := by
      have := congrArg List.reverse hrev
      simpa using this
    simp [this]
  | cons y ys =>
    have hy : cs.getLast? = some y := by
      rw [← List.head?_reverse, hrev]
      rfl
    have hne := h y hy
    rw [List.dropWhile_cons, if_neg (by simpa using hne), ← hrev, cs.reverse_reverse]

lemma rstrip_append_nonnil {c : Char} (xs : List Char) {ys : List Char}
    (h : rstrip c ys ≠ []) : rstrip c (xs ++ ys) = xs ++ rstrip c ys := by
  have hne : (List.dropWhile (· = c) ys.reverse).isEmpty = false := by
    rw [List.isEmpty_eq_false_iff_exists_mem]
    rcases List.exists_mem_of_ne_nil _ h with ⟨x, hx⟩
    rw [rstrip, List.mem_reverse] at hx
    exact ⟨x, hx⟩
  rw [rstrip, List.reverse_append, List.dropWhile_append, hne]
  simp only [Bool.false_eq_true, if_false, List.reverse_append, List.reverse_reverse]
  rfl

lemma rstrip_append_nil {c : Char} (xs : List Char) {ys : List Char}
    (h : rstrip c ys = []) : rstrip c (xs ++ ys) = rstrip c xs := by
  have hnil : (List.dropWhile (· = c) ys.reverse).isEmpty = true := by
    rw [List.isEmpty_iff]
    have := congrArg List.reverse h
    rw [rstrip] at this
    simpa using this
  rw [rstrip, List.reverse_append, List.dropWhile_append, hnil]
  rfl

lemma takeWhile_split {p : Char → Bool} {xs : List Char} (hxs : ∀ x ∈ xs, p x = true)
    {y : Char} (hy : p y = false) (ys : List Char) :
    (xs ++ y :: ys).takeWhile p = xs ∧ (xs ++ y :: ys).dropWhile p = y :: ys := by
  induction xs with
  | nil =>
    constructor
    · rw [List.nil_append, List.takeWhile_cons, hy]
      simp
    · rw [List.nil_append, List.dropWhile_cons, hy]
      simp
  | cons x xs ih =>
    have hx := hxs x (List.mem_cons_self x xs)
    have ih2 := ih (fun z hz => hxs z (List.mem_cons_of_mem x hz))
    constructor
    · rw [List.cons_append, List.takeWhile_cons, hx]
      simp only [if_true, ih2.1]
    · rw [List.cons_append, List.dropWhile_cons, hx]
      simp only [if_true, ih2.2]

/-! ### Shape facts about `natChars` and `padLeft` -/

lemma natDigitsLE_ne_nil {n : ℕ} (h : n ≠ 0) : natDigitsLE n ≠ [] := by
  rw [natDigitsLE_unfold]
  simp [h]

lemma natChars_ne_nil (n : ℕ) : natChars n ≠ [] := by
  rw [natChars, Ne, List.map_eq_nil_iff, digitsBE]
  split
  · simp
  · rename_i h
    rw [List.reverse_eq_nil_iff]
    exact natDigitsLE_ne_nil h

lemma mem_natChars_digit (n : ℕ) : ∀ c ∈ natChars n, ∃ d, d < 10 ∧ c = digitChar d := by
  intro c hc
  rw [natChars] at hc
  rcases List.mem_map.mp hc with ⟨d, hd, rfl⟩
  exact ⟨d, digitsBE_lt n d hd, rfl⟩

lemma mem_padLeft_digit (k fp : ℕ) :
    ∀ c ∈ padLeft k (natChars fp), ∃ d, d < 10 ∧ c = digitChar d := by
  intro c hc
  rw [padLeft] at hc
  rcases List.mem_append.mp hc with h | h
  · rw [List.eq_of_mem_replicate h]
    exact ⟨0, by norm_num, rfl⟩
  · exact mem_natChars_digit fp c h

lemma getLast_mem {cs : List Char} {x : Char} (h : cs.getLast? = some x) : x ∈ cs := by
  rcases List.getLast?_eq_some_iff.mp h with ⟨ys, rfl⟩
  simp

lemma getLast_digits_ne_dot {cs : List Char}
    (h : ∀ c ∈ cs, ∃ d, d < 10 ∧ c = digitChar d) :
    ∀ x, cs.getLast? = some x → x ≠ '.' := by
  intro x hx
  rcases h x (getLast_mem hx) with ⟨d, hd, rfl⟩
  exact digitChar_ne_dot hd

lemma dot_not_mem_digits {cs : List Char}
    (h : ∀ c ∈ cs, ∃ d, d < 10 ∧ c = digitChar d) : '.' ∉ cs := by
  intro hmem
  rcases h _ hmem with ⟨d, hd, hdc⟩
  exact digitChar_ne_dot hd hdc.symm

lemma natDigitsLE_length_le {k n : ℕ} (h : n < 10 ^ k) : (natDigitsLE n).length ≤ k := by
  induction k generalizing n with
  | zero =>
    have : n = 0 := by simpa using h
    rw [this, natDigitsLE_unfold]
    simp
  | succ k ih =>
    rw [natDigitsLE_unfold]
    split
    · simp
    · rename_i hn
      simp only [List.length_cons]
      have hdiv : n / 10 < 10 ^ k := by
        rw [Nat.div_lt_iff_lt_mul (by norm_num)]
        calc n < 10 ^ (k + 1) := h
        _ = 10 ^ k * 10 := by ring
      have := ih hdiv
      omega

lemma natChars_length_le {k n : ℕ} (hk : 1 ≤ k) (h : n < 10 ^ k) :
    (natChars n).length ≤ k := by
  rw [natChars, List.length_map, digitsBE]
  split
  · simpa
  · rw [List.length_reverse]
    exact natDigitsLE_length_le h

lemma padLeft_length {k : ℕ} {cs : List Char} (h : cs.length ≤ k) :
    (padLeft k cs).length = k := by
  rw [padLeft, List.length_append, List.length_replicate]
  omega

lemma evalDigitsN_padLeft (k fp : ℕ) : evalDigitsN (padLeft k (natChars fp)) = fp := by
  rw [padLeft, evalDigitsN_append, evalDigitsN_replicate_zero, evalDigitsN_natChars]
  ring

/-! ### The fixed-point round trip -/

lemma evalDigitsN_nil : evalDigitsN [] = 0 := rfl

lemma strVal_mk (cs : List Char) :
    strVal ⟨cs⟩ = (evalDigitsN (cs.takeWhile (fun c => c ≠ '.')) : ℚ) +
      (evalDigitsN ((cs.dropWhile (fun c => c ≠ '.')).drop 1) : ℚ) /
        10 ^ ((cs.dropWhile (fun c => c ≠ '.')).drop 1).length := rfl

lemma fmtF_neg {d : Dec} (hm : 0 ≤ d.m) (he : d.e < 0) :
    d.fmtF = natChars (d.m.natAbs / 10 ^ (-d.e).toNat) ++
      '.' :: padLeft (-d.e).toNat (natChars (d.m.natAbs % 10 ^ (-d.e).toNat)) := by
  rw [Dec.fmtF]
  simp [not_le.mpr he, not_lt.mpr hm]

lemma Dec.val_neg_exp {d : Dec} (hm : 0 ≤ d.m) (he : d.e < 0) :
    d.val = ((d.m.natAbs / 10 ^ (-d.e).toNat : ℕ) : ℚ) +
      ((d.m.natAbs % 10 ^ (-d.e).toNat : ℕ) : ℚ) / (10 : ℚ) ^ (-d.e).toNat := by
  set k := (-d.e).toNat with hkdef
  have hke : d.e = -(k : ℤ) := by
    rw [hkdef]
    omega
  have hmq : (d.m : ℚ) = (d.m.natAbs : ℚ) := by
    rw [Int.cast_natAbs]
    simp [abs_of_nonneg (show (0 : ℚ) ≤ (d.m : ℚ) by exact_mod_cast hm)]
  have hsplit : (10 : ℕ) ^ k * (d.m.natAbs / 10 ^ k) + d.m.natAbs % 10 ^ k = d.m.natAbs :=
    Nat.div_add_mod _ _
  have hsplit2 : d.m.natAbs / 10 ^ k * 10 ^ k + d.m.natAbs % 10 ^ k = d.m.natAbs := by
    rw [Nat.mul_comm]
    exact hsplit
  rw [Dec.val, hke, zpow_neg, zpow_natCast, hmq]
  have h10 : ((10 : ℚ) ^ k) ≠ 0 := by positivity
  field_simp
  exact_mod_cast hsplit2.symm

/-- Faithfulness of `f"{qty:f}".rstrip('0').rstrip('.')` in the fixed-point
regime: for a nonnegative decimal with negative exponent (which
`Decimal(str(x))` of a Python float always has when `|x| < 10^16`), the
stripped string evaluates back to the decimal's value, is nonempty, never
ends with a point, and when it contains a point never ends with a zero. -/
theorem strip_fmtF_faithful (d : Dec) (hm : 0 ≤ d.m) (he : d.e < 0) :
    strVal ⟨stripZerosDot d.fmtF⟩ = d.val ∧
    stripZerosDot d.fmtF ≠ [] ∧
    (∀ x, (stripZerosDot d.fmtF).getLast? = some x → x ≠ '.') ∧
    ('.' ∈ stripZerosDot d.fmtF →
      ∀ x, (stripZerosDot d.fmtF).getLast? = some x → x ≠ '0') := by
  set k := (-d.e).toNat with hkdef
  have hk1 : 1 ≤ k := by
    rw [hkdef]
    omega
  set n := d.m.natAbs with hndef
  set ip := n / 10 ^ k with hipdef
  set fp := n % 10 ^ k with hfpdef
  have hfp_lt : fp < 10 ^ k := Nat.mod_lt _ (by positivity)
  set ipCs := natChars ip with hipcs
  set fracCs := padLeft k (natChars fp) with hfraccs
  have hfmt : d.fmtF = ipCs ++ '.' :: fracCs := fmtF_neg hm he
  have hfraclen : fracCs.length = k := padLeft_length (natChars_length_le hk1 hfp_lt)
  have hfrac_eval : evalDigitsN fracCs = fp := evalDigitsN_padLeft k fp
  have hip_digits := mem_natChars_digit ip
  have hfrac_digits := mem_padLeft_digit k fp
  have hip_ne_nil : ipCs ≠ [] := natChars_ne_nil ip
  have hip_eval : evalDigitsN ipCs = ip := evalDigitsN_natChars ip
  have hval : d.val = (ip : ℚ) + (fp : ℚ) / (10 : ℚ) ^ k := Dec.val_neg_exp hm he
  have hassoc : ipCs ++ '.' :: fracCs = (ipCs ++ ['.']) ++ fracCs := by simp
  have hip_last : ∀ x, ipCs.getLast? = some x → x ≠ '.' := getLast_digits_ne_dot hip_digits
  have hip_take : ipCs.takeWhile (fun c => c ≠ '.') = ipCs := by
    rw [List.takeWhile_eq_self_iff]
    intro x hx
    rcases hip_digits x hx with ⟨dd, hdd, rfl⟩
    simpa using digitChar_ne_dot hdd
  rcases rstrip_decomp '0' fracCs with ⟨z, hz⟩
  by_cases hnil : rstrip '0' fracCs = []
  · -- the whole fraction is zeros: the point and the zeros are stripped away
    have hfp0 : fp = 0 := by
      rw [hnil, List.nil_append] at hz
      rw [← hfrac_eval, hz, evalDigitsN_replicate_zero]
    have h1 : rstrip '0' d.fmtF = ipCs ++ ['.'] := by
      rw [hfmt, hassoc, rstrip_append_nil _ hnil, rstrip_append_nonnil ipCs (by decide)]
      have : rstrip '0' ['.'] = ['.'] := by decide
      rw [this]
    have h2 : stripZerosDot d.fmtF = ipCs := by
      rw [stripZerosDot, h1, rstrip_append_nil _ (show rstrip '.' ['.'] = [] by decide)]
      exact rstrip_eq_self _ _ hip_last
    have hdrop : ipCs.dropWhile (fun c => c ≠ '.') = [] := by
      rw [List.dropWhile_eq_nil_iff]
      intro x hx
      rcases hip_digits x hx with ⟨dd, hdd, rfl⟩
      simpa using digitChar_ne_dot hdd
    refine ⟨?_, ?_, ?_, ?_⟩
    · rw [h2, strVal_mk, hip_take, hdrop]
      simp [evalDigitsN_nil, hip_eval, hval, hfp0]
    · rw [h2]; exact hip_ne_nil
    · rw [h2]; exact hip_last
    · rw [h2]
      intro hdot
      exact absurd hdot (dot_not_mem_digits hip_digits)
  · -- the stripped fraction is nonempty and ends in a nonzero digit
    set t := rstrip '0' fracCs with htdef
    have ht_last_ne0 : ∀ x, t.getLast? = some x → x ≠ '0' := rstrip_getLast_ne '0' fracCs
    have ht_sub : ∀ c ∈ t, ∃ dd, dd < 10 ∧ c = digitChar dd := by
      intro c hc
      have hmem : c ∈ fracCs := by
        rw [hz]
        exact List.mem_append_left _ hc
      exact hfrac_digits c hmem
    have ht_last_nedot : ∀ x, t.getLast? = some x → x ≠ '.' := getLast_digits_ne_dot ht_sub
    have h1 : rstrip '0' d.fmtF = ipCs ++ '.' :: t := by
      rw [hfmt, hassoc, rstrip_append_nonnil _ hnil, ← htdef]
      simp
    have hlast_full : (ipCs ++ '.' :: t).getLast? = t.getLast? := by
      rw [List.getLast?_append]
      cases ht : t.getLast? with
      | none =>
        exact absurd (List.getLast?_isSome.not.mp (by rw [ht]; simp)) (by simpa using hnil)
      | some x =>
        rw [List.getLast?_cons, ht]
        rfl
    have h2 : stripZerosDot d.fmtF = ipCs ++ '.' :: t := by
      rw [stripZerosDot, h1]
      apply rstrip_eq_self
      intro x hx
      rw [hlast_full] at hx
      exact ht_last_nedot x hx
    -- arithmetic: the stripped fraction keeps the value
    have hz_eval : fp = evalDigitsN t * 10 ^ z := by
      rw [← hfrac_eval, hz, evalDigitsN_append, evalDigitsN_replicate_zero,
        List.length_replicate]
      ring
    have hz_len : t.length + z = k := by
      rw [← hfraclen, hz, List.length_append, List.length_replicate]
    have hsplit := @takeWhile_split (fun c => decide (c ≠ '.')) ipCs ?_ '.' ?_ t
    · refine ⟨?_, ?_, ?_, ?_⟩
      · rw [h2, strVal_mk, hsplit.1, hsplit.2, List.drop_one, List.tail_cons, hip_eval, hval]
        congr 1
        rw [hz_eval]
        push_cast
        rw [← hz_len]
        have h10 : (10 : ℚ) ^ z ≠ 0 := by positivity
        rw [pow_add]
        field_simp
        ring
      · rw [h2]
        simp
      · rw [h2]
        intro x hx
        rw [hlast_full] at hx
        exact ht_last_nedot x hx
      · rw [h2]
        intro _ x hx
        rw [hlast_full] at hx
        exact ht_last_ne0 x hx
    · intro x hx
      rcases hip_digits x hx with ⟨dd, hdd, rfl⟩
      simpa using digitChar_ne_dot hdd
    · simp

/-! ### The Lot Sizer: `calculate_quantity_from_usd` (trade_executor.py 47-96) -/

/-- The decimal the Lot Sizer ends up formatting: quantize the raw decimal
down to the step's exponent when the step is positive (Python `quantize`
uses only the exponent of `Decimal(str(quantity_step))`), then clamp with
`max`/`min` against the bound decimals. -/
def calcDec (rawDec stepDec minqDec : Dec) (maxqDec : Option Dec) : Dec :=
  decMinOpt maxqDec (decMax minqDec
    (if 0 < stepDec.val then rawDec.quantizeDown stepDec.e else rawDec))

/-- CPython's default decimal context precision (`getcontext().prec`). -/
def decPrec : ℕ := 28

/-- `Decimal.quantize(step, rounding=ROUND_DOWN)` under the default
context: CPython signals `decimal.InvalidOperation` (modelled as `none`)
whenever the result coefficient does not fit in `decPrec` digits, and
returns the rounded decimal otherwise. -/
def Dec.quantizeDownCtx (d : Dec) (e : ℤ) : Option Dec :=
  if (truncQ (d.val * 10 ^ (-e))).natAbs < 10 ^ decPrec then some (d.quantizeDown e)
  else none

/-- The Lot Sizer's decimal with the context modelled: the quantize call
(which may raise) happens only when the step is positive, then the clamp.
The `Decimal` constructor and `max`/`min` are exact and never trap. -/
def calcDecCtx (rawDec stepDec minqDec : Dec) (maxqDec : Option Dec) : Option Dec :=
  if 0 < stepDec.val then
    match rawDec.quantizeDownCtx stepDec.e with
    | none => none
    | some q1 => some (decMinOpt maxqDec (decMax minqDec q1))
  else some (decMinOpt maxqDec (decMax minqDec rawDec))

/-- Embeds `calculate_quantity_from_usd(usd_amount, price, quantity_step,
min_quantity, max_quantity)`.  `rawDec` is `Decimal(str(usd_amount / price))`
— the decimal rendering of the float quotient, supplied directly since IEEE
binary arithmetic is not modelled (every concrete instance below supplies
exactly the decimal CPython produces); `stepDec` and `minqDec` are
`Decimal(str(quantity_step))` and `Decimal(str(min_quantity))`; `maxqDec =
none` stands for the `Decimal('Infinity')` arising from the `float('inf')`
default of `max_quantity`.  `none` models `decimal.InvalidOperation`
propagating out of the `quantize` call (trade_executor.py line 82) when
the rounded coefficient exceeds the 28-digit default context precision;
otherwise the result is the stripped quantity string and
`float(qty) * price`. -/
def calculate_quantity_from_usd (price : ℚ) (rawDec stepDec minqDec : Dec)
    (maxqDec : Option Dec) : Option (String × ℚ) :=
  if price ≤ 0 then some ("0", 0)
  else
    match calcDecCtx rawDec stepDec minqDec maxqDec with
    | none => none
    | some q => some (⟨stripZerosDot q.fmtF⟩, q.val * price)

/-- The sizer's untrapped value: `calculate_quantity_from_usd` with the
precision trap ignored.  The executor embedding below consumes this total
variant; at the (extreme) inputs where the real sizer raises, the real
`execute_signal` would propagate `decimal.InvalidOperation` instead — its
sizing call sits outside every try block — and no executor theorem in
this file depends on the sizing outcome. -/
def lotSizerValue (price : ℚ) (rawDec stepDec minqDec : Dec)
    (maxqDec : Option Dec) : String × ℚ :=
  if price ≤ 0 then ("0", 0)
  else
    let q := calcDec rawDec stepDec minqDec maxqDec
    (⟨stripZerosDot q.fmtF⟩, q.val * price)

lemma decMax_val (a b : Dec) : (decMax a b).val = max a.val b.val := by
  rw [decMax, max_def]
  rcases lt_trichotomy a.val b.val with h | h | h
  · rw [if_pos h, if_pos h.le]
  · rw [if_neg (by rw [h]; exact lt_irrefl _), if_pos h.le, h]
  · rw [if_neg (not_lt.mpr h.le), if_neg (not_le.mpr h)]

lemma decMin_val (a b : Dec) : (decMin a b).val = min a.val b.val := by
  rw [decMin, min_def]
  rcases lt_trichotomy a.val b.val with h | h | h
  · rw [if_neg (not_lt.mpr h.le), if_pos h.le]
  · rw [if_neg (by rw [h]; exact lt_irrefl _), if_pos h.le, h]
  · rw [if_pos h, if_neg (not_le.mpr h)]

lemma Dec.val_nonneg {d : Dec} (h : 0 ≤ d.m) : 0 ≤ d.val := by
  rw [Dec.val]
  have : (0 : ℚ) < 10 ^ d.e := zpow_pos (by norm_num) _
  positivity

lemma truncQ_nonneg {x : ℚ} (h : 0 ≤ x) : truncQ x = ⌊x⌋ ∧ 0 ≤ truncQ x := by
  rw [truncQ, if_pos h]
  exact ⟨rfl, Int.floor_nonneg.mpr h⟩

/-- The decimal produced by the Lot Sizer keeps a nonnegative coefficient
and a negative exponent when every input decimal has them. -/
lemma calcDec_shape {rawDec stepDec minqDec : Dec} {maxqDec : Option Dec}
    (hraw_m : 0 ≤ rawDec.m) (hraw_e : rawDec.e < 0) (hstep_e : stepDec.e < 0)
    (hminq_m : 0 ≤ minqDec.m) (hminq_e : minqDec.e < 0)
    (hmaxq : ∀ M ∈ maxqDec, 0 ≤ M.m ∧ M.e < 0) :
    0 ≤ (calcDec rawDec stepDec minqDec maxqDec).m ∧
    (calcDec rawDec stepDec minqDec maxqDec).e < 0 := by
  have hq1 : 0 ≤ (if 0 < stepDec.val then rawDec.quantizeDown stepDec.e else rawDec).m ∧
      (if 0 < stepDec.val then rawDec.quantizeDown stepDec.e else rawDec).e < 0 := by
    split
    · refine ⟨?_, hstep_e⟩
      have hx : 0 ≤ rawDec.val * 10 ^ (-stepDec.e) := by
        have := Dec.val_nonneg hraw_m
        have h10 : (0 : ℚ) < 10 ^ (-stepDec.e) := zpow_pos (by norm_num) _
        positivity
      exact (truncQ_nonneg hx).2
    · exact ⟨hraw_m, hraw_e⟩
  rw [calcDec]
  set q1 := if 0 < stepDec.val then rawDec.quantizeDown stepDec.e else rawDec
  have hq2 : 0 ≤ (decMax minqDec q1).m ∧ (decMax minqDec q1).e < 0 := by
    rw [decMax]
    split
    · exact hq1
    · exact ⟨hminq_m, hminq_e⟩
  cases hM : maxqDec with
  | none => exact hq2
  | some M =>
    rw [decMinOpt, decMin]
    split
    · exact hq2
    · exact hmaxq M (by rw [hM]; rfl)

/-- A `some` result of the context-aware Lot Sizer decimal equals the
untrapped one. -/
lemma calcDecCtx_some_eq {rawDec stepDec minqDec : Dec} {maxqDec : Option Dec} {q : Dec}
    (h : calcDecCtx rawDec stepDec minqDec maxqDec = some q) :
    q = calcDec rawDec stepDec minqDec maxqDec := by
  unfold calcDecCtx at h
  unfold calcDec
  by_cases hstep : 0 < stepDec.val
  · rw [if_pos hstep] at h ⊢
    unfold Dec.quantizeDownCtx at h
    by_cases hm : (truncQ (rawDec.val * 10 ^ (-stepDec.e))).natAbs < 10 ^ decPrec
    · rw [if_pos hm] at h
      injection h with h
      rw [← h]
    · rw [if_neg hm] at h
      exact Option.noConfusion h
  · rw [if_neg hstep] at h ⊢
    injection h with h
    rw [← h]

/-- With a positive step, the context-aware Lot Sizer decimal traps iff
the down-rounded coefficient needs at least `decPrec + 1` digits. -/
lemma calcDecCtx_none_iff {rawDec stepDec minqDec : Dec} {maxqDec : Option Dec}
    (hstep : 0 < stepDec.val) :
    (calcDecCtx rawDec stepDec minqDec maxqDec = none ↔
      10 ^ decPrec ≤ (rawDec.quantizeDown stepDec.e).m.natAbs) := by
  unfold calcDecCtx Dec.quantizeDownCtx
  rw [if_pos hstep]
  by_cases hm : (truncQ (rawDec.val * 10 ^ (-stepDec.e))).natAbs < 10 ^ decPrec
  · rw [if_pos hm]
    constructor
    · intro h
      exact Option.noConfusion h
    · intro h
      exact absurd h (not_le.mpr hm)
  · rw [if_neg hm]
    constructor
    · intro _
      exact not_lt.mp hm
    · intro _
      rfl

/-- C6: counterexample.  On `usd_amount = 0.5`, `price = 1.0`,
`quantity_step = 0.2` (far below the precision trap: the rounded
coefficient is `5`) the source returns quantity `0.5` (value `0.5`), but
the greatest multiple of the step not exceeding the raw quantity is
`0.4`: `Decimal.quantize` rounds to the step's decimal exponent, not to a
multiple of the step, so the claim's rounding rule fails for steps that are
not unit powers of ten. -/
theorem C6_counterexample :
    calculate_quantity_from_usd 1 ⟨5, -1⟩ ⟨2, -1⟩ ⟨0, -1⟩ none = some ("0.5", 1/2) ∧
    (1/2 : ℚ) ≠ (2/10 : ℚ) * (⌊(1/2 : ℚ) / (2/10 : ℚ)⌋ : ℤ) := by
  have hctx : calcDecCtx ⟨5, -1⟩ ⟨2, -1⟩ ⟨0, -1⟩ none = some ⟨5, -1⟩ := by
    norm_num [calcDecCtx, Dec.quantizeDownCtx, decPrec, decMax, decMin, decMinOpt,
      Dec.quantizeDown, Dec.val, truncQ]
  constructor
  · rw [calculate_quantity_from_usd, if_neg (by norm_num : ¬(1 : ℚ) ≤ 0), hctx]
    simp only [Option.some.injEq, Prod.mk.injEq]
    constructor
    · decide
    · norm_num [Dec.val]
  · norm_num

/-- C6 (amended): for `price > 0`, a positive step and a nonnegative raw
coefficient, the sizer raises `decimal.InvalidOperation` (modelled as
`none`) precisely when the down-rounded coefficient exceeds the 28-digit
default decimal context precision; whenever it does return, the returned
USD value is the clamped quantity times the price, where the quantity is
the raw decimal rounded down — never up — to the exponent of the step
decimal (the greatest multiple of `10 ^ stepDec.e` not exceeding the raw
quantity; this coincides with the claim's "nearest multiple of
quantity_step" exactly when the step is a unit power of ten), clamped
into the min/max bounds by value; and the documented example
`calculate_quantity_from_usd(50.0, 1.905, 0.1, 0, inf) = ("26.2", 49.911)`
holds. -/
theorem C6_amended :
    (∀ (price : ℚ) (rawDec stepDec minqDec : Dec) (maxqDec : Option Dec),
      0 < price → 0 < stepDec.val → 0 ≤ rawDec.m →
      (calculate_quantity_from_usd price rawDec stepDec minqDec maxqDec = none ↔
        10 ^ decPrec ≤ (rawDec.quantizeDown stepDec.e).m.natAbs) ∧
      (∀ s v, calculate_quantity_from_usd price rawDec stepDec minqDec maxqDec =
          some (s, v) →
        ∃ m : ℤ,
          (rawDec.quantizeDown stepDec.e).val = (m : ℚ) * 10 ^ stepDec.e ∧
          (rawDec.quantizeDown stepDec.e).val ≤ rawDec.val ∧
          rawDec.val - 10 ^ stepDec.e < (rawDec.quantizeDown stepDec.e).val ∧
          v = (match maxqDec with
            | none => max minqDec.val (rawDec.quantizeDown stepDec.e).val
            | some M =>
              min M.val (max minqDec.val (rawDec.quantizeDown stepDec.e).val)) * price)) ∧
    calculate_quantity_from_usd (1905/1000) ⟨26246719160104988, -15⟩ ⟨1, -1⟩ ⟨0, -1⟩ none =
      some ("26.2", 49911/1000) := by
  constructor
  · intro price rawDec stepDec minqDec maxqDec hp hstep hraw
    constructor
    · rw [calculate_quantity_from_usd, if_neg (not_le.mpr hp)]
      rcases hc : calcDecCtx rawDec stepDec minqDec maxqDec with _ | q
      · constructor
        · intro _
          exact (calcDecCtx_none_iff hstep).mp hc
        · intro _
          rfl
      · constructor
        · intro habs
          exact Option.noConfusion habs
        · intro hcond
          have hn := (@calcDecCtx_none_iff rawDec stepDec minqDec maxqDec hstep).mpr
            hcond
          rw [hc] at hn
          exact Option.noConfusion hn
    · intro s v hsv
      rw [calculate_quantity_from_usd, if_neg (not_le.mpr hp)] at hsv
      rcases hc : calcDecCtx rawDec stepDec minqDec maxqDec with _ | q
      · rw [hc] at hsv
        exact Option.noConfusion hsv
      · rw [hc] at hsv
        injection hsv with hsv
        injection hsv with h1 h2
        have hqeq := calcDecCtx_some_eq hc
        have h10 : (0 : ℚ) < 10 ^ stepDec.e := zpow_pos (by norm_num) _
        have h10n : (0 : ℚ) < 10 ^ (-stepDec.e) := zpow_pos (by norm_num) _
        have hx : 0 ≤ rawDec.val * 10 ^ (-stepDec.e) := by
          have := Dec.val_nonneg hraw
          positivity
        have htr := (truncQ_nonneg hx).1
        have hinv : (10 : ℚ) ^ (-stepDec.e) * 10 ^ stepDec.e = 1 := by
          rw [← zpow_add₀ (by norm_num : (10 : ℚ) ≠ 0)]
          simp
        have hqval : (rawDec.quantizeDown stepDec.e).val =
            ((truncQ (rawDec.val * 10 ^ (-stepDec.e)) : ℤ) : ℚ) * 10 ^ stepDec.e := rfl
        refine ⟨truncQ (rawDec.val * 10 ^ (-stepDec.e)), rfl, ?_, ?_, ?_⟩
        · rw [hqval, htr]
          have hfle : (⌊rawDec.val * 10 ^ (-stepDec.e)⌋ : ℚ) ≤
              rawDec.val * 10 ^ (-stepDec.e) := Int.floor_le _
          calc (⌊rawDec.val * 10 ^ (-stepDec.e)⌋ : ℚ) * 10 ^ stepDec.e
              ≤ rawDec.val * 10 ^ (-stepDec.e) * 10 ^ stepDec.e := by
                exact mul_le_mul_of_nonneg_right hfle h10.le
            _ = rawDec.val := by rw [mul_assoc, hinv, mul_one]
        · rw [hqval, htr]
          have hflt : rawDec.val * 10 ^ (-stepDec.e) - 1 <
              (⌊rawDec.val * 10 ^ (-stepDec.e)⌋ : ℚ) := Int.sub_one_lt_floor _
          calc rawDec.val - 10 ^ stepDec.e
              = (rawDec.val * 10 ^ (-stepDec.e) - 1) * 10 ^ stepDec.e := by
                rw [sub_mul, mul_assoc, hinv, mul_one, one_mul]
            _ < (⌊rawDec.val * 10 ^ (-stepDec.e)⌋ : ℚ) * 10 ^ stepDec.e := by
                exact mul_lt_mul_of_pos_right hflt h10
        · rw [← h2, hqeq]
          cases maxqDec with
          | none => rw [calcDec, if_pos hstep, decMinOpt, decMax_val, max_comm]
          | some M => rw [calcDec, if_pos hstep, decMinOpt, decMin_val, decMax_val,
              max_comm]
  · have hctx : calcDecCtx ⟨26246719160104988, -15⟩ ⟨1, -1⟩ ⟨0, -1⟩ none =
        some ⟨262, -1⟩ := by
      norm_num [calcDecCtx, Dec.quantizeDownCtx, decPrec, decMax, decMin, decMinOpt,
        Dec.quantizeDown, Dec.val, truncQ]
    rw [calculate_quantity_from_usd, if_neg (by norm_num : ¬(1905/1000 : ℚ) ≤ 0), hctx]
    simp only [Option.some.injEq, Prod.mk.injEq]
    constructor
    · decide
    · norm_num [Dec.val]

/-- C9: counterexample.  For `usd_amount = 1e23`, `price = 1.0`,
`quantity_step = 0.0` (skip rounding, so the precision trap is never
reached), the quotient's decimal is `Decimal('1E+23')`: fixed-point
formatting yields a 24-character digit string with no decimal point, and
`.rstrip('0')` collapses it to `"1"`, which does not parse back to the
quantity `1e23`. -/
theorem C9_counterexample :
    calculate_quantity_from_usd 1 ⟨1, 23⟩ ⟨0, -1⟩ ⟨0, -1⟩ none =
      some ("1", 100000000000000000000000) ∧
    strVal "1" = 1 ∧ (1 : ℚ) ≠ 100000000000000000000000 := by
  refine ⟨?_, ?_, by norm_num⟩
  · have hctx : calcDecCtx ⟨1, 23⟩ ⟨0, -1⟩ ⟨0, -1⟩ none = some ⟨1, 23⟩ := by
      norm_num [calcDecCtx, decMax, decMin, decMinOpt, Dec.val]
    rw [calculate_quantity_from_usd, if_neg (by norm_num : ¬(1 : ℚ) ≤ 0), hctx]
    simp only [Option.some.injEq, Prod.mk.injEq]
    constructor
    · decide
    · norm_num [Dec.val]
  · rw [show ("1" : String) = ⟨['1']⟩ from rfl, strVal_mk]
    have h1 : List.takeWhile (fun c => c ≠ '.') ['1'] = ['1'] := by decide
    have h2 : List.dropWhile (fun c => c ≠ '.') ['1'] = [] := by decide
    have h3 : evalDigitsN ['1'] = 1 := by decide
    rw [h1, h2, List.drop_nil, h3, evalDigitsN_nil]
    norm_num

/-- C9 (amended): in the fixed-point regime — every decimal input has a
negative exponent and nonnegative coefficient, as `Decimal(str(x))` yields
for every nonnegative Python float below `10^16` — whenever the sizer
returns at all (the quantize call instead raises
`decimal.InvalidOperation` when the down-rounded coefficient exceeds the
28-digit default context precision), the quantity string is faithful:
parsing it back gives exactly the clamped rounded quantity (the returned
value divided by the price), it is nonempty, never ends with a decimal
point, and ends with a zero digit only when it contains no decimal point
(so no unnecessary trailing zeros or point remain). -/
theorem C9_amended (price : ℚ) (rawDec stepDec minqDec : Dec) (maxqDec : Option Dec)
    (s : String) (v : ℚ)
    (hp : 0 < price) (hraw_m : 0 ≤ rawDec.m) (hraw_e : rawDec.e < 0)
    (hstep_e : stepDec.e < 0) (hminq_m : 0 ≤ minqDec.m) (hminq_e : minqDec.e < 0)
    (hmaxq : ∀ M ∈ maxqDec, 0 ≤ M.m ∧ M.e < 0)
    (hres : calculate_quantity_from_usd price rawDec stepDec minqDec maxqDec =
      some (s, v)) :
    strVal s = (calcDec rawDec stepDec minqDec maxqDec).val ∧
    v = (calcDec rawDec stepDec minqDec maxqDec).val * price ∧
    s.data ≠ [] ∧
    (∀ x, s.data.getLast? = some x → x ≠ '.') ∧
    ('.' ∈ s.data → ∀ x, s.data.getLast? = some x → x ≠ '0') := by
  rw [calculate_quantity_from_usd, if_neg (not_le.mpr hp)] at hres
  rcases hc : calcDecCtx rawDec stepDec minqDec maxqDec with _ | q
  · rw [hc] at hres
    exact Option.noConfusion hres
  · rw [hc] at hres
    injection hres with hres
    injection hres with h1 h2
    have hqeq := calcDecCtx_some_eq hc
    subst hqeq
    have hshape := calcDec_shape hraw_m hraw_e hstep_e hminq_m hminq_e hmaxq
    have hfaith := strip_fmtF_faithful (calcDec rawDec stepDec minqDec maxqDec)
      hshape.1 hshape.2
    refine ⟨?_, ?_, ?_, ?_, ?_⟩
    · rw [← h1]
      exact hfaith.1
    · rw [← h2]
    · rw [← h1]
      exact hfaith.2.1
    · rw [← h1]
      exact hfaith.2.2.1
    · rw [← h1]
      exact hfaith.2.2.2

/-- Witness: the amended C6 theorem applied at the documented example,
with the no-trap conjunct checked there too. -/
theorem C6_amended_witness :
    ¬ 10 ^ decPrec ≤ ((⟨26246719160104988, -15⟩ : Dec).quantizeDown
        (⟨1, -1⟩ : Dec).e).m.natAbs ∧
    (49911/1000 : ℚ) =
      max (⟨0, -1⟩ : Dec).val
        ((⟨26246719160104988, -15⟩ : Dec).quantizeDown (⟨1, -1⟩ : Dec).e).val *
        (1905/1000) := by
  have hmain := C6_amended.1 (1905/1000) ⟨26246719160104988, -15⟩ ⟨1, -1⟩ ⟨0, -1⟩ none
    (by norm_num) (by norm_num [Dec.val]) (by norm_num)
  obtain ⟨m, _, _, _, h⟩ := hmain.2 "26.2" (49911/1000) C6_amended.2
  refine ⟨?_, h⟩
  intro habs
  have hn := (hmain.1).mpr habs
  rw [C6_amended.2] at hn
  exact Option.noConfusion hn

/-- Witness: the amended C9 theorem applied at the documented example. -/
theorem C9_amended_witness :
    strVal "26.2" = (calcDec ⟨26246719160104988, -15⟩ ⟨1, -1⟩ ⟨0, -1⟩ none).val ∧
    (49911/1000 : ℚ) =
      (calcDec ⟨26246719160104988, -15⟩ ⟨1, -1⟩ ⟨0, -1⟩ none).val * (1905/1000) := by
  have hres : calculate_quantity_from_usd (1905/1000) ⟨26246719160104988, -15⟩ ⟨1, -1⟩
      ⟨0, -1⟩ none = some ("26.2", 49911/1000) := by
    have hctx : calcDecCtx ⟨26246719160104988, -15⟩ ⟨1, -1⟩ ⟨0, -1⟩ none =
        some ⟨262, -1⟩ := by
      norm_num [calcDecCtx, Dec.quantizeDownCtx, decPrec, decMax, decMin, decMinOpt,
        Dec.quantizeDown, Dec.val, truncQ]
    rw [calculate_quantity_from_usd, if_neg (by norm_num : ¬(1905/1000 : ℚ) ≤ 0), hctx]
    simp only [Option.some.injEq, Prod.mk.injEq]
    exact ⟨by decide, by norm_num [Dec.val]⟩
  have h := C9_amended (1905/1000) ⟨26246719160104988, -15⟩ ⟨1, -1⟩ ⟨0, -1⟩ none
    "26.2" (49911/1000) (by norm_num) (by norm_num) (by norm_num) (by norm_num)
    (by norm_num) (by norm_num) (by simp) hres
  exact ⟨h.1, h.2.1⟩

/-! ### Data model (signal_parser / database interfaces, broadcaster.py) -/

/-- `SignalType` (LONG/SHORT); close/update variants never reach the
execution paths modelled here. -/
inductive SignalType
  | LONG
  | SHORT
deriving DecidableEq, Repr

/-- `signal.signal_type.value`. -/
def SignalType.value : SignalType → String
  | .LONG => "LONG"
  | .SHORT => "SHORT"

/-- `OrderType` (MARKET/LIMIT). -/
inductive OrderType
  | MARKET
  | LIMIT
deriving DecidableEq, Repr

/-- `signal.order_type.value`. -/
def OrderType.value : OrderType → String
  | .MARKET => "MARKET"
  | .LIMIT => "LIMIT"

/-- The parsed `Signal` value consumed read-only by the broadcaster
(fields as used by broadcaster.py and trade_executor.py). -/
structure Signal where
  signalId : String
  symbol : String
  signalType : SignalType
  orderType : OrderType
  entryPrice : Option ℚ
  stopLoss : Option ℚ
  takeProfit : Option ℚ
  leverage : ℕ
deriving DecidableEq, Repr

/-- A `Subscriber` record as read from the database. -/
structure Subscriber where
  telegramId : ℤ
  username : Option String
  apiSecret : String
  tradeAmountUsdt : ℚ
  maxLeverage : ℕ
  tradeMode : String
  isActive : Bool
deriving DecidableEq, Repr

/-- `TradeStatus` (broadcaster.py). -/
inductive TradeStatus
  | SUCCESS
  | INSUFFICIENT_BALANCE
  | SYMBOL_NOT_FOUND
  | API_ERROR
  | SKIPPED
  | PENDING_CONFIRMATION
deriving DecidableEq, Repr

/-- `TradeResult` — one per (signal, subscriber) attempt.  The quantity
string is carried as its numeric value (`str(qty)` is abstracted). -/
structure TradeResult where
  subscriberId : ℤ
  username : Option String
  status : TradeStatus
  message : String
  orderId : Option String := none
  quantity : Option ℚ := none
  actualValue : Option ℚ := none
  side : Option String := none
  orderType : Option String := none
  entryPrice : Option ℚ := none
  availableBalance : Option ℚ := none
deriving DecidableEq, Repr

/-- A Python exception from an external call: `mudrex` marks a
`MudrexAPIError` (caught separately from bare `Exception`), `msg` is
`str(e)`. -/
structure PyErr where
  mudrex : Bool
  msg : String
deriving DecidableEq, Repr

/-- Instrument constraints returned by `client.assets.get`. -/
structure Asset where
  quantityStep : ℚ
  minQuantity : ℚ
  maxQuantity : ℚ
deriving DecidableEq, Repr

/-- An order object returned by the order-creation endpoints. -/
structure MOrder where
  orderId : String
deriving DecidableEq, Repr

/-- An open position returned by `client.positions.list_open()`. -/
structure Position where
  symbol : String
  positionId : String
deriving DecidableEq, Repr

/-- A mutating call made against the trading API during one execution
(recorded in order). -/
inductive Event
  | leverageSet (symbol : String) (leverage : ℕ)
  | marketOrder (symbol side : String) (qty : ℚ) (leverage : ℕ)
  | limitOrder (symbol side : String) (price : Option ℚ) (qty : ℚ) (leverage : ℕ)
  | riskOrder (positionId : String) (sl tp : Option ℚ)
deriving DecidableEq, Repr

/-- The leverage an order-submission event carries, if it is one. -/
def Event.orderLeverage : Event → Option ℕ
  | .marketOrder _ _ _ lev => some lev
  | .limitOrder _ _ _ _ lev => some lev
  | _ => none

/-- Oracle for the external calls one `_execute_trade_sync` run makes.
Each endpoint is invoked at most once per run, so a single outcome per
endpoint suffices.  `balance = .ok none` models a falsy `balance_info`
(treated as balance 0.0); `createOrder = .ok none` models a falsy order
object. -/
structure Env where
  ctorFail : Option PyErr
  balance : Except PyErr (Option ℚ)
  asset : Except PyErr (Option Asset)
  leverageSet : Except PyErr Unit
  calcOrder : Except PyErr (ℚ × ℚ)
  createOrder : Except PyErr (Option MOrder)
  listPositions : Except PyErr (List Position)
  setRiskOrder : Except PyErr Unit

/-- `Env` plus the outcome of the coordinator-side `db.record_trade`
write (awaited inside `_execute_for_subscriber`). -/
structure EnvFull where
  env : Env
  recordTrade : Except PyErr Unit

/-- Abstracts Python numeric string interpolation (`f"{x}"`, `f"{x:.2f}"`);
no theorem depends on the rendering, only on the surrounding template. -/
def pyNum (q : ℚ) : String := toString q

/-! ### `SignalBroadcaster._execute_trade_sync` (broadcaster.py 176-365) -/

/-- Python truthiness of an optional float: `None` and `0.0` are falsy. -/
def truthyQ (o : Option ℚ) : Bool :=
  match o with
  | none => false
  | some x => decide (x ≠ 0)

/-- `str(x) if x else None` on an optional float argument. -/
def riskParam (o : Option ℚ) : Option ℚ := if truthyQ o then o else none

/-- The result every non-SUCCESS path of the sync body shares. -/
def failResult (sig : Signal) (sub : Subscriber) (st : TradeStatus) (msg : String) :
    TradeResult :=
  { subscriberId := sub.telegramId
    username := sub.username
    status := st
    message := msg
    side := some sig.signalType.value
    orderType := some sig.orderType.value }

/-- `float(balance_info.balance) if balance_info else 0.0`. -/
def balanceOf (binfo : Option ℚ) : ℚ :=
  match binfo with
  | some b => b
  | none => 0

/-- Insufficient-balance result: both tiers carry `available_balance`. -/
def insufficientResult (sig : Signal) (sub : Subscriber) (msg : String) (bal : ℚ) :
    TradeResult :=
  { failResult sig sub .INSUFFICIENT_BALANCE msg with availableBalance := some bal }

/-- The side string derived from the signal direction
(`"LONG" if signal.signal_type == SignalType.LONG else "SHORT"`). -/
def sideOf (sig : Signal) : String :=
  match sig.signalType with
  | .LONG => "LONG"
  | .SHORT => "SHORT"

/-- The order-submission call (market or limit per `signal.order_type`). -/
def orderEvent (sig : Signal) (qty : ℚ) (lev : ℕ) : Event :=
  match sig.orderType with
  | .MARKET => Event.marketOrder sig.symbol (sideOf sig) qty lev
  | .LIMIT => Event.limitOrder sig.symbol (sideOf sig) sig.entryPrice qty lev

/-- The SL/TP attachment block (broadcaster.py 300-323): attempted only
when the signal carries a stop-loss or take-profit; returns whether SL/TP
was set, the recorded attachment error (`sl_tp_error`), and the mutating
calls made.  All exceptions are contained. -/
def riskAttempt (sig : Signal) (env : Env) : Bool × Option String × List Event :=
  if truthyQ sig.stopLoss || truthyQ sig.takeProfit then
    match env.listPositions with
    | .error e => (false, some e.msg, [])
    | .ok ps =>
      match ps.find? (fun p => p.symbol = sig.symbol) with
      | none => (false, none, [])
      | some p =>
        match env.setRiskOrder with
        | .error e => (false, some e.msg,
            [Event.riskOrder p.positionId (riskParam sig.stopLoss)
              (riskParam sig.takeProfit)])
        | .ok _ => (true, none,
            [Event.riskOrder p.positionId (riskParam sig.stopLoss)
              (riskParam sig.takeProfit)])
  else (false, none, [])

/-- The base success message `f"{side} {qty_str} {signal.symbol}
(~${actual_value:.2f})"`. -/
def successBase (sig : Signal) (qty actualValue : ℚ) : String :=
  sideOf sig ++ " " ++ pyNum qty ++ " " ++ sig.symbol ++
    " (~$" ++ pyNum actualValue ++ ")"

/-- The success message (broadcaster.py 325-331). -/
def successMessage (sig : Signal) (qty actualValue : ℚ)
    (risk : Bool × Option String × List Event) : String :=
  if truthyQ sig.stopLoss || truthyQ sig.takeProfit then
    if risk.1 then successBase sig qty actualValue ++ " | SL/TP set ✓"
    else match risk.2.1 with
      | some err => successBase sig qty actualValue ++ " | SL/TP failed: " ++ err
      | none => successBase sig qty actualValue ++ " | No position for SL/TP"
  else successBase sig qty actualValue

/-- The SUCCESS result (broadcaster.py 333-344). -/
def successResult (sig : Signal) (sub : Subscriber) (qty actualValue : ℚ)
    (order : MOrder) (risk : Bool × Option String × List Event) : TradeResult :=
  { subscriberId := sub.telegramId
    username := sub.username
    status := .SUCCESS
    message := successMessage sig qty actualValue risk
    orderId := some order.orderId
    quantity := some qty
    actualValue := some actualValue
    side := some (sideOf sig)
    orderType := some sig.orderType.value
    entryPrice := sig.entryPrice }

/-- The body of the `try:` block of `_execute_trade_sync`: `.error e`
means an exception escaped to the `except` clauses; the event trace
records the mutating API calls made before the outcome. -/
def runBody (sig : Signal) (sub : Subscriber) (env : Env) :
    Except PyErr TradeResult × List Event :=
  match env.balance with
  | .error e => (.error e, [])
  | .ok binfo =>
    if balanceOf binfo < sub.tradeAmountUsdt then
      if balanceOf binfo < 1 then
        (.ok (insufficientResult sig sub
          ("Balance too low: " ++ pyNum (balanceOf binfo) ++ " USDT (min $1 required)")
          (balanceOf binfo)), [])
      else
        (.ok (insufficientResult sig sub
          ("Requested: " ++ pyNum sub.tradeAmountUsdt ++ " USDT, Available: " ++
            pyNum (balanceOf binfo) ++ " USDT")
          (balanceOf binfo)), [])
    else
      match env.asset with
      | .error e => (.error e, [])
      | .ok none =>
        (.ok (failResult sig sub .SYMBOL_NOT_FOUND ("Symbol not found: " ++ sig.symbol)),
          [])
      | .ok (some asset) =>
        match env.leverageSet with
        | .error e =>
          (.error e, [Event.leverageSet sig.symbol (min sig.leverage sub.maxLeverage)])
        | .ok _ =>
          match env.calcOrder with
          | .error e =>
            (.error e, [Event.leverageSet sig.symbol (min sig.leverage sub.maxLeverage)])
          | .ok qv =>
            if qv.2 < 5 then
              (.ok (failResult sig sub .API_ERROR
                ("Trade amount $" ++ pyNum sub.tradeAmountUsdt ++
                  " is below minimum $5. Use /setamount to increase.")),
                [Event.leverageSet sig.symbol (min sig.leverage sub.maxLeverage)])
            else if qv.1 < asset.minQuantity then
              (.ok (failResult sig sub .API_ERROR
                ("Quantity too small: " ++ pyNum qv.1 ++ " < " ++
                  pyNum asset.minQuantity)),
                [Event.leverageSet sig.symbol (min sig.leverage sub.maxLeverage)])
            else
              match env.createOrder with
              | .error e =>
                (.error e,
                  [Event.leverageSet sig.symbol (min sig.leverage sub.maxLeverage),
                    orderEvent sig qv.1 (min sig.leverage sub.maxLeverage)])
              | .ok none =>
                -- falsy order: the SL/TP block is skipped and the final
                -- `order.order_id` access raises AttributeError
                (.error ⟨false, "AttributeError: NoneType has no attribute order_id"⟩,
                  [Event.leverageSet sig.symbol (min sig.leverage sub.maxLeverage),
                    orderEvent sig qv.1 (min sig.leverage sub.maxLeverage)])
              | .ok (some order) =>
                (.ok (successResult sig sub qv.1 qv.2 order (riskAttempt sig env)),
                  [Event.leverageSet sig.symbol (min sig.leverage sub.maxLeverage),
                    orderEvent sig qv.1 (min sig.leverage sub.maxLeverage)] ++
                    (riskAttempt sig env).2.2)

/-- `_execute_trade_sync`: client construction happens before the `try:`
(its exception escapes the function); exceptions inside the body are
converted to `API_ERROR` results by the `except MudrexAPIError` /
`except Exception` clauses. -/
def executeTradeSync (sig : Signal) (sub : Subscriber) (env : Env) :
    Except PyErr TradeResult × List Event :=
  match env.ctorFail with
  | some e => (.error e, [])
  | none =>
    match runBody sig sub env with
    | (.error e, tr) =>
      (.ok (failResult sig sub .API_ERROR
        (if e.mudrex then "API error: " ++ e.msg else "Error: " ++ e.msg)), tr)
    | (.ok r, tr) => (.ok r, tr)

/-- `_execute_for_subscriber` (broadcaster.py 136-174): catches anything
the threaded sync execution raises and converts it to `API_ERROR`; then
awaits `db.record_trade` OUTSIDE that `try/except`, so an exception from
the persistence write propagates out of the unit. -/
def executeForSubscriber (sig : Signal) (sub : Subscriber) (envF : EnvFull) :
    Except PyErr TradeResult × List Event :=
  let (r, tr) := executeTradeSync sig sub envF.env
  let result : TradeResult := match r with
    | .error e => failResult sig sub .API_ERROR e.msg
    | .ok res => res
  match envF.recordTrade with
  | .error e => (.error e, tr)
  | .ok _ => (.ok result, tr)

/-! ### `SignalBroadcaster.broadcast_signal` (broadcaster.py 64-134) -/

/-- Coordinator-level happening: the one `save_signal` write, or an event
from one subscriber's execution unit. -/
inductive BEvent
  | saveSignal (signalId : String)
  | exec (telegramId : ℤ) (ev : Event)
deriving DecidableEq, Repr

/-- The `gather(..., return_exceptions=True)` fallback result for a unit
that raised: API_ERROR with the exception text, and — unlike every result
built inside the unit — no side or order type. -/
def gatherFallback (s : Subscriber) (e : PyErr) : TradeResult :=
  { subscriberId := s.telegramId
    username := s.username
    status := .API_ERROR
    message := e.msg }

/-- `broadcast_signal`: returns `([], [])` before anything when there are
no active subscribers; otherwise partitions AUTO/MANUAL, saves the signal,
runs one unit per AUTO subscriber (indexed oracle `envs`), converts a unit
that raised into an `API_ERROR` result carrying that subscriber's identity
(the `gather(..., return_exceptions=True)` defence, which sets neither side
nor order type), and returns results in input order plus the MANUAL list. -/
def broadcastSignal (sig : Signal) (subs : List Subscriber) (envs : ℕ → EnvFull) :
    (List TradeResult × List Subscriber) × List BEvent :=
  if subs = [] then (([], []), [])
  else
    let autos := subs.filter (fun s => s.tradeMode = "AUTO")
    let manuals := subs.filter (fun s => s.tradeMode = "MANUAL")
    let runs := autos.enum.map (fun p => (p.2, executeForSubscriber sig p.2 (envs p.1)))
    let results := runs.map (fun r =>
      match r.2.1 with
      | .error e => gatherFallback r.1 e
      | .ok res => res)
    let events := BEvent.saveSignal sig.signalId ::
      (runs.map (fun r => r.2.2.map (BEvent.exec r.1.telegramId))).flatten
    ((results, manuals), events)

/-! ### `TradeExecutor` (trade_executor.py 99-313) -/

/-- `ExecutionStatus` (trade_executor.py). -/
inductive ExecutionStatus
  | SUCCESS
  | INSUFFICIENT_BALANCE
  | SYMBOL_NOT_FOUND
  | LEVERAGE_ERROR
  | ORDER_FAILED
  | POSITION_NOT_FOUND
  | API_ERROR
deriving DecidableEq, Repr

/-- `ExecutionResult` (the `order`/`position` objects are carried as ids). -/
structure ExecutionResult where
  status : ExecutionStatus
  message : String
  signalId : String
  orderId : Option String := none
  quantity : Option String := none
deriving DecidableEq, Repr

/-- The executor's configuration (`trade_amount_usdt`, `max_leverage`). -/
structure ExecConfig where
  tradeAmountUsdt : ℚ
  maxLeverage : ℕ
deriving DecidableEq, Repr

/-- Instrument constraints as the executor consumes them: the decimals
`Decimal(str(float(asset.quantity_step)))` etc. passed into the Lot
Sizer. -/
structure ExAsset where
  quantityStep : Dec
  minQuantity : Dec
  maxQuantity : Dec
deriving DecidableEq, Repr

/-- Oracle for the executor's external calls, plus `rawDec`, the decimal
rendering `Decimal(str(trade_amount_usdt / price))` of the float quotient
the Lot Sizer computes (IEEE division/printing abstracted as for
`calculate_quantity_from_usd`). -/
structure ExecEnv where
  balance : Except PyErr (Option ℚ)
  asset : Except PyErr (Option ExAsset)
  leverageSet : Except PyErr Unit
  createOrder : Except PyErr (Option MOrder)
  listPositions : Except PyErr (List Position)
  setRiskOrder : Except PyErr Unit
  rawDec : Dec

/-- `TradeExecutor._check_balance` (127-135): any exception is swallowed
and reported as balance 0.0; a falsy balance object is 0.0 as well. -/
def checkBalance (env : ExecEnv) : ℚ :=
  match env.balance with
  | .error _ => 0
  | .ok none => 0
  | .ok (some b) => b

/-- `TradeExecutor._get_asset`: exceptions swallowed into `None`. -/
def getAsset (env : ExecEnv) : Option ExAsset :=
  match env.asset with
  | .ok (some a) => some a
  | _ => none

/-- `TradeExecutor._set_leverage`: exceptions swallowed into `False`. -/
def setLeverageOk (env : ExecEnv) : Bool :=
  match env.leverageSet with
  | .ok _ => true
  | .error _ => false

/-- `signal.entry_price if signal.entry_price else 1.0` (`None` and `0.0`
both fall back to `1.0`). -/
def effPrice (sig : Signal) : ℚ :=
  match sig.entryPrice with
  | none => 1
  | some p => if p = 0 then 1 else p

/-- The executor's SL/TP attachment block (trade_executor.py 264-283):
attempted only when the order object is truthy and the signal carries a
stop-loss or take-profit; all exceptions contained, no error recorded. -/
def execRiskAttempt (sig : Signal) (env : ExecEnv) (orderOpt : Option MOrder) :
    Bool × List Event :=
  if orderOpt.isSome && (truthyQ sig.stopLoss || truthyQ sig.takeProfit) then
    match env.listPositions with
    | .error _ => (false, [])
    | .ok ps =>
      match ps.find? (fun p => p.symbol = sig.symbol) with
      | none => (false, [])
      | some p =>
        match env.setRiskOrder with
        | .error _ => (false,
            [Event.riskOrder p.positionId (riskParam sig.stopLoss)
              (riskParam sig.takeProfit)])
        | .ok _ => (true,
            [Event.riskOrder p.positionId (riskParam sig.stopLoss)
              (riskParam sig.takeProfit)])
  else (false, [])

/-- The executor's success message (trade_executor.py 285-288). -/
def execSuccessMessage (sig : Signal) (qty : String) (actualValue : ℚ)
    (slTpSet : Bool) : String :=
  let base := "Order placed: " ++ sideOf sig ++ " " ++ qty ++ " " ++ sig.symbol ++
    " (~$" ++ pyNum actualValue ++ ")"
  if truthyQ sig.stopLoss || truthyQ sig.takeProfit then
    if slTpSet then base ++ " | SL/TP set ✓" else base ++ " | SL/TP pending"
  else base

/-- `TradeExecutor.execute_signal` (171-313). -/
def executeSignal (cfg : ExecConfig) (sig : Signal) (env : ExecEnv) :
    ExecutionResult × List Event :=
  if checkBalance env < cfg.tradeAmountUsdt then
    ({ status := .INSUFFICIENT_BALANCE
       message := "Insufficient balance: " ++ pyNum (checkBalance env) ++
         " USDT available, need " ++ pyNum cfg.tradeAmountUsdt ++ " USDT"
       signalId := sig.signalId }, [])
  else
    match getAsset env with
    | none =>
      ({ status := .SYMBOL_NOT_FOUND
         message := "Symbol not found: " ++ sig.symbol
         signalId := sig.signalId }, [])
    | some asset =>
      if setLeverageOk env = false then
        ({ status := .LEVERAGE_ERROR
           message := "Failed to set leverage to " ++
             toString (min sig.leverage cfg.maxLeverage) ++ "x for " ++ sig.symbol
           signalId := sig.signalId },
          [Event.leverageSet sig.symbol
            (min (min sig.leverage cfg.maxLeverage) cfg.maxLeverage)])
      else
        let qv := lotSizerValue (effPrice sig) env.rawDec
          asset.quantityStep asset.minQuantity (some asset.maxQuantity)
        if qv.1 = "0" ∨ strVal qv.1 < asset.minQuantity.val then
          ({ status := .ORDER_FAILED
             message := "Calculated quantity " ++ qv.1 ++ " below minimum " ++
               pyNum asset.minQuantity.val
             signalId := sig.signalId },
            [Event.leverageSet sig.symbol
              (min (min sig.leverage cfg.maxLeverage) cfg.maxLeverage)])
        else
          match env.createOrder with
          | .error e =>
            if e.mudrex then
              ({ status := .ORDER_FAILED
                 message := "Order failed: " ++ e.msg
                 signalId := sig.signalId },
                [Event.leverageSet sig.symbol
                  (min (min sig.leverage cfg.maxLeverage) cfg.maxLeverage),
                  orderEvent sig (strVal qv.1) (min sig.leverage cfg.maxLeverage)])
            else
              ({ status := .API_ERROR
                 message := "Unexpected error: " ++ e.msg
                 signalId := sig.signalId },
                [Event.leverageSet sig.symbol
                  (min (min sig.leverage cfg.maxLeverage) cfg.maxLeverage),
                  orderEvent sig (strVal qv.1) (min sig.leverage cfg.maxLeverage)])
          | .ok orderOpt =>
            ({ status := .SUCCESS
               message := execSuccessMessage sig qv.1 qv.2
                 (execRiskAttempt sig env orderOpt).1
               signalId := sig.signalId
               orderId := orderOpt.map (fun o => o.orderId)
               quantity := some qv.1 },
              [Event.leverageSet sig.symbol
                (min (min sig.leverage cfg.maxLeverage) cfg.maxLeverage),
                orderEvent sig (strVal qv.1) (min sig.leverage cfg.maxLeverage)] ++
                (execRiskAttempt sig env orderOpt).2)

/-! ### Trace lemmas for the leverage-cap invariant -/

lemma riskAttempt_orderLeverage {sig : Signal} {env : Env} {ev : Event}
    (hmem : ev ∈ (riskAttempt sig env).2.2) : ev.orderLeverage = none := by
  unfold riskAttempt at hmem
  iterate 6 (all_goals try split at hmem)
  all_goals simp_all [Event.orderLeverage]

lemma execRiskAttempt_orderLeverage {sig : Signal} {env : ExecEnv}
    {orderOpt : Option MOrder} {ev : Event}
    (hmem : ev ∈ (execRiskAttempt sig env orderOpt).2) : ev.orderLeverage = none := by
  unfold execRiskAttempt at hmem
  iterate 6 (all_goals try split at hmem)
  all_goals simp_all [Event.orderLeverage]

lemma orderEvent_orderLeverage (sig : Signal) (qty : ℚ) (lev : ℕ) :
    (orderEvent sig qty lev).orderLeverage = some lev := by
  unfold orderEvent
  cases sig.orderType <;> rfl

lemma runBody_orderLeverage {sig : Signal} {sub : Subscriber} {env : Env} {ev : Event}
    (hmem : ev ∈ (runBody sig sub env).2) :
    ev.orderLeverage = none ∨
    ev.orderLeverage = some (min sig.leverage sub.maxLeverage) := by
  unfold runBody at hmem
  iterate 8 (all_goals try split at hmem)
  all_goals simp at hmem
  all_goals
    first
    | (rcases hmem with h | h | h
       · subst h; left; rfl
       · subst h; right; exact orderEvent_orderLeverage sig _ _
       · exact Or.inl (riskAttempt_orderLeverage h))
    | (rcases hmem with h | h
       · subst h; left; rfl
       · subst h; right; exact orderEvent_orderLeverage sig _ _)
    | (subst hmem; left; rfl)

lemma executeTradeSync_orderLeverage {sig : Signal} {sub : Subscriber} {env : Env}
    {ev : Event} (hmem : ev ∈ (executeTradeSync sig sub env).2) :
    ev.orderLeverage = none ∨
    ev.orderLeverage = some (min sig.leverage sub.maxLeverage) := by
  have key : (executeTradeSync sig sub env).2 = [] ∨
      (executeTradeSync sig sub env).2 = (runBody sig sub env).2 := by
    unfold executeTradeSync
    rcases hc : env.ctorFail with _ | e
    · rcases hrb : runBody sig sub env with ⟨er | r, tr⟩
      · right
        simp only [hc, hrb]
      · right
        simp only [hc, hrb]
    · left
      simp only [hc]
  rcases key with h | h
  · rw [h] at hmem
    simp at hmem
  · rw [h] at hmem
    exact runBody_orderLeverage hmem

lemma executeSignal_orderLeverage {cfg : ExecConfig} {sig : Signal} {env : ExecEnv}
    {ev : Event} (hmem : ev ∈ (executeSignal cfg sig env).2) :
    ev.orderLeverage = none ∨
    ev.orderLeverage = some (min sig.leverage cfg.maxLeverage) := by
  unfold executeSignal at hmem
  by_cases h1 : checkBalance env < cfg.tradeAmountUsdt
  · rw [if_pos h1] at hmem
    simp at hmem
  · rw [if_neg h1] at hmem
    rcases ha : getAsset env with _ | asset <;> simp only [ha] at hmem
    · simp at hmem
    · by_cases h2 : setLeverageOk env = false
      · rw [if_pos h2] at hmem
        simp at hmem
        subst hmem
        left
        rfl
      · rw [if_neg h2] at hmem
        by_cases h3 : (lotSizerValue (effPrice sig) env.rawDec
            asset.quantityStep asset.minQuantity (some asset.maxQuantity)).1 = "0" ∨
            strVal (lotSizerValue (effPrice sig) env.rawDec
              asset.quantityStep asset.minQuantity (some asset.maxQuantity)).1 <
              asset.minQuantity.val
        · rw [if_pos h3] at hmem
          simp at hmem
          subst hmem
          left
          rfl
        · rw [if_neg h3] at hmem
          rcases hco : env.createOrder with e | oo <;> simp only [hco] at hmem
          · by_cases h4 : e.mudrex = true
            · rw [if_pos h4] at hmem
              simp at hmem
              rcases hmem with h | h
              · subst h; left; rfl
              · subst h; right; exact orderEvent_orderLeverage sig _ _
            · rw [if_neg h4] at hmem
              simp at hmem
              rcases hmem with h | h
              · subst h; left; rfl
              · subst h; right; exact orderEvent_orderLeverage sig _ _
          · simp at hmem
            rcases hmem with h | h | h
            · subst h; left; rfl
            · subst h; right; exact orderEvent_orderLeverage sig _ _
            · exact Or.inl (execRiskAttempt_orderLeverage h)

/-! ### Concrete instances for witnesses and counterexamples -/

/-- A concrete market signal without SL/TP. -/
def wSig : Signal :=
  { signalId := "sig-1", symbol := "BTCUSDT", signalType := .LONG,
    orderType := .MARKET, entryPrice := some 100, stopLoss := none,
    takeProfit := none, leverage := 20 }

/-- A concrete AUTO subscriber with a 10x cap. -/
def wSub : Subscriber :=
  { telegramId := 7, username := some "alice", apiSecret := "sk",
    tradeAmountUsdt := 50, maxLeverage := 10, tradeMode := "AUTO", isActive := true }

/-- An environment where every call succeeds. -/
def wEnvOk : Env :=
  { ctorFail := none, balance := .ok (some 100)
    asset := .ok (some ⟨1/10, 0, 1000000⟩)
    leverageSet := .ok (), calcOrder := .ok (1/2, 50)
    createOrder := .ok (some ⟨"ord-1"⟩)
    listPositions := .ok [], setRiskOrder := .ok () }

/-- An executor environment whose balance query raises. -/
def wExecEnvBalErr : ExecEnv :=
  { balance := .error ⟨false, "timeout"⟩, asset := .ok none, leverageSet := .ok ()
    createOrder := .ok none, listPositions := .ok [], setRiskOrder := .ok ()
    rawDec := ⟨0, -1⟩ }

/-- C1: every order-submission call — market or limit, in the
broadcaster's per-subscriber sync execution and in the standalone
executor — carries leverage `min(signal.leverage, cap)`; the raw signal
leverage is never used when it exceeds the cap. -/
theorem C1_leverage_cap :
    (∀ (sig : Signal) (sub : Subscriber) (env : Env) (ev : Event) (lev : ℕ),
      ev ∈ (executeTradeSync sig sub env).2 → ev.orderLeverage = some lev →
      lev = min sig.leverage sub.maxLeverage) ∧
    (∀ (cfg : ExecConfig) (sig : Signal) (env : ExecEnv) (ev : Event) (lev : ℕ),
      ev ∈ (executeSignal cfg sig env).2 → ev.orderLeverage = some lev →
      lev = min sig.leverage cfg.maxLeverage) := by
  constructor
  · intro sig sub env ev lev hmem hlev
    rcases executeTradeSync_orderLeverage hmem with h | h
    · rw [h] at hlev
      cases hlev
    · rw [h] at hlev
      exact (Option.some.inj hlev).symm
  · intro cfg sig env ev lev hmem hlev
    rcases executeSignal_orderLeverage hmem with h | h
    · rw [h] at hlev
      cases hlev
    · rw [h] at hlev
      exact (Option.some.inj hlev).symm

/-- Witness: C1 applied to a concrete successful market execution. -/
theorem C1_leverage_cap_witness :
    Event.marketOrder "BTCUSDT" "LONG" (1/2) 10 ∈ (executeTradeSync wSig wSub wEnvOk).2 ∧
    10 = min wSig.leverage wSub.maxLeverage := by
  have hmem : Event.marketOrder "BTCUSDT" "LONG" (1/2) 10 ∈
      (executeTradeSync wSig wSub wEnvOk).2 := by
    norm_num [executeTradeSync, runBody, wSig, wSub, wEnvOk, orderEvent, sideOf,
      balanceOf, riskAttempt, truthyQ]
  exact ⟨hmem, C1_leverage_cap.1 wSig wSub wEnvOk _ 10 hmem rfl⟩

/-- C10: in the standalone executor a failed balance query is swallowed
(`_check_balance` returns 0.0), so for every positive configured trade
amount `execute_signal` returns INSUFFICIENT_BALANCE — not API_ERROR —
and no API call, in particular no order submission, is made. -/
theorem C10_balance_error_insufficient (cfg : ExecConfig) (sig : Signal) (env : ExecEnv)
    (e : PyErr) (hb : env.balance = .error e) (hamt : 0 < cfg.tradeAmountUsdt) :
    (executeSignal cfg sig env).1.status = .INSUFFICIENT_BALANCE ∧
    (executeSignal cfg sig env).2 = [] := by
  have hcb : checkBalance env = 0 := by
    unfold checkBalance
    rw [hb]
  unfold executeSignal
  rw [if_pos (by rw [hcb]; exact hamt)]
  exact ⟨rfl, rfl⟩

/-- Witness: C10 applied to a concrete failing balance query. -/
theorem C10_witness :
    (executeSignal ⟨50, 20⟩ wSig wExecEnvBalErr).1.status =
      ExecutionStatus.INSUFFICIENT_BALANCE ∧
    (executeSignal ⟨50, 20⟩ wSig wExecEnvBalErr).2 = [] :=
  C10_balance_error_insufficient ⟨50, 20⟩ wSig wExecEnvBalErr ⟨false, "timeout"⟩ rfl
    (by norm_num)

/-- A fully-succeeding per-run environment including the persistence
write. -/
def wEnvFullOk : EnvFull := ⟨wEnvOk, .ok ()⟩

/-- C4: counterexample — with an empty active-subscriber list the
broadcast returns `([], [])` before reaching `save_signal`, so the signal
is saved zero times, not exactly once. -/
theorem C4_counterexample :
    (broadcastSignal wSig [] (fun _ => wEnvFullOk)).2 = [] ∧
    List.count (BEvent.saveSignal wSig.signalId)
      (broadcastSignal wSig [] (fun _ => wEnvFullOk)).2 = 0 := by
  constructor <;> simp [broadcastSignal]

/-- C4 (amended): for every broadcast over a NON-empty subscriber list,
`save_signal` is recorded exactly once, as the first event — before any
trade-execution event; with an empty list the broadcast returns early and
never saves (see the counterexample). -/
theorem C4_amended (sig : Signal) (subs : List Subscriber) (envs : ℕ → EnvFull)
    (hne : subs ≠ []) :
    ∃ rest, (broadcastSignal sig subs envs).2 = BEvent.saveSignal sig.signalId :: rest ∧
      (∀ b ∈ rest, ∃ t e, b = BEvent.exec t e) ∧
      List.count (BEvent.saveSignal sig.signalId) (broadcastSignal sig subs envs).2 = 1 := by
  unfold broadcastSignal
  rw [if_neg hne]
  refine ⟨_, rfl, ?_, ?_⟩
  · intro b hb
    rw [List.mem_flatten] at hb
    rcases hb with ⟨l, hl, hbl⟩
    rcases List.mem_map.mp hl with ⟨run, _, rfl⟩
    rcases List.mem_map.mp hbl with ⟨e, _, rfl⟩
    exact ⟨_, _, rfl⟩
  · rw [List.count_cons]
    have hzero : List.count (BEvent.saveSignal sig.signalId)
        (((subs.filter (fun s => s.tradeMode = "AUTO")).enum.map
          (fun p => (p.2, executeForSubscriber sig p.2 (envs p.1)))).map
            (fun r => r.2.2.map (BEvent.exec r.1.telegramId))).flatten = 0 := by
      rw [List.count_eq_zero]
      intro hmem
      rw [List.mem_flatten] at hmem
      rcases hmem with ⟨l, hl, hbl⟩
      rcases List.mem_map.mp hl with ⟨run, _, rfl⟩
      rcases List.mem_map.mp hbl with ⟨e, _, heq⟩
      cases heq
    rw [hzero]
    simp

/-- Witness: C4 (amended) applied to a concrete one-subscriber list. -/
theorem C4_amended_witness :
    ∃ rest, (broadcastSignal wSig [wSub] (fun _ => wEnvFullOk)).2 =
        BEvent.saveSignal wSig.signalId :: rest ∧
      (∀ b ∈ rest, ∃ t e, b = BEvent.exec t e) ∧
      List.count (BEvent.saveSignal wSig.signalId)
        (broadcastSignal wSig [wSub] (fun _ => wEnvFullOk)).2 = 1 :=
  C4_amended wSig [wSub] (fun _ => wEnvFullOk) (by simp)

/-- The succeeding environment with the fetched balance lowered to $0.50
(below the $1 floor). -/
def wEnvLowBal : Env := { wEnvOk with balance := .ok (some (1/2)) }

/-- C5: counterexample — balance 0.50 (below the $1 floor), trade amount
50: the result's `available_balance` is `some 0.5`, not absent as the
claim's floor tier requires; the source sets it in both tiers. -/
theorem C5_counterexample :
    (executeTradeSync wSig wSub wEnvLowBal).1 =
      Except.ok (insufficientResult wSig wSub
        ("Balance too low: " ++ pyNum (1/2 : ℚ) ++ " USDT (min $1 required)") (1/2)) ∧
    (insufficientResult wSig wSub
        ("Balance too low: " ++ pyNum (1/2 : ℚ) ++ " USDT (min $1 required)")
        (1/2)).status = TradeStatus.INSUFFICIENT_BALANCE ∧
    (insufficientResult wSig wSub
        ("Balance too low: " ++ pyNum (1/2 : ℚ) ++ " USDT (min $1 required)")
        (1/2)).availableBalance = some (1/2) := by
  have hrun : executeTradeSync wSig wSub wEnvLowBal =
      (.ok (insufficientResult wSig wSub
        ("Balance too low: " ++ pyNum (1/2 : ℚ) ++ " USDT (min $1 required)") (1/2)), []) := by
    norm_num [executeTradeSync, runBody, wEnvLowBal, wEnvOk, wSub, balanceOf]
  exact ⟨by rw [hrun], rfl, rfl⟩

/-- C5 (amended): a fetched balance below the configured amount yields
INSUFFICIENT_BALANCE with an empty trace (no order submitted), and in
BOTH tiers — below the $1 floor included — `available_balance` equals the
fetched balance; the tiers differ only in the message. -/
theorem C5_amended (sig : Signal) (sub : Subscriber) (env : Env) (b : ℚ)
    (hc : env.ctorFail = none) (hb : env.balance = .ok (some b))
    (hlt : b < sub.tradeAmountUsdt) :
    ∃ r, executeTradeSync sig sub env = (.ok r, []) ∧
      r.status = .INSUFFICIENT_BALANCE ∧
      r.availableBalance = some b ∧
      (b < 1 →
        r.message = "Balance too low: " ++ pyNum b ++ " USDT (min $1 required)") ∧
      (¬ b < 1 →
        r.message = "Requested: " ++ pyNum sub.tradeAmountUsdt ++
          " USDT, Available: " ++ pyNum b ++ " USDT") := by
  unfold executeTradeSync runBody
  simp only [hc, hb, balanceOf]
  rw [if_pos hlt]
  by_cases h1 : b < 1
  · rw [if_pos h1]
    exact ⟨_, rfl, rfl, rfl, fun _ => rfl, fun hn => absurd h1 hn⟩
  · rw [if_neg h1]
    exact ⟨_, rfl, rfl, rfl, fun hy => absurd hy h1, fun _ => rfl⟩

/-- Witness: C5 (amended) applied to the concrete $0.50 balance. -/
theorem C5_amended_witness :
    ∃ r, executeTradeSync wSig wSub wEnvLowBal = (.ok r, []) ∧
      r.status = TradeStatus.INSUFFICIENT_BALANCE ∧
      r.availableBalance = some (1/2) ∧
      ((1 : ℚ)/2 < 1 →
        r.message = "Balance too low: " ++ pyNum (1/2 : ℚ) ++ " USDT (min $1 required)") ∧
      (¬ (1 : ℚ)/2 < 1 →
        r.message = "Requested: " ++ pyNum wSub.tradeAmountUsdt ++
          " USDT, Available: " ++ pyNum (1/2 : ℚ) ++ " USDT") :=
  C5_amended wSig wSub wEnvLowBal (1/2) rfl rfl (by norm_num [wSub])

/-- C7: a sized order whose realized USD value is below the $5 minimum
notional yields API_ERROR — never SUCCESS — with the message telling the
user to raise the configured amount, and the trace stops at the leverage
call: no order is submitted, regardless of the quantity bounds. -/
theorem C7_min_notional (sig : Signal) (sub : Subscriber) (env : Env) (b : ℚ)
    (asset : Asset) (qty v : ℚ)
    (hc : env.ctorFail = none) (hb : env.balance = .ok (some b))
    (hge : ¬ b < sub.tradeAmountUsdt) (ha : env.asset = .ok (some asset))
    (hl : env.leverageSet = .ok ()) (hcalc : env.calcOrder = .ok (qty, v))
    (hv : v < 5) :
    executeTradeSync sig sub env =
      (.ok (failResult sig sub .API_ERROR
        ("Trade amount $" ++ pyNum sub.tradeAmountUsdt ++
          " is below minimum $5. Use /setamount to increase.")),
        [Event.leverageSet sig.symbol (min sig.leverage sub.maxLeverage)]) := by
  unfold executeTradeSync runBody
  simp only [hc, hb, ha, hl, hcalc, balanceOf]
  rw [if_neg hge, if_pos hv]

/-- Witness: C7 applied to a concrete $2 order value. -/
theorem C7_min_notional_witness :
    executeTradeSync wSig wSub { wEnvOk with calcOrder := .ok (1/50, 2) } =
      (.ok (failResult wSig wSub .API_ERROR
        ("Trade amount $" ++ pyNum wSub.tradeAmountUsdt ++
          " is below minimum $5. Use /setamount to increase.")),
        [Event.leverageSet wSig.symbol (min wSig.leverage wSub.maxLeverage)]) :=
  C7_min_notional wSig wSub _ 100 ⟨1/10, 0, 1000000⟩ (1/50) 2 rfl rfl
    (by norm_num [wSub]) rfl rfl rfl (by norm_num)

/-- The succeeding environment plus a failing `record_trade` write. -/
def wEnvFullRecErr : EnvFull := ⟨wEnvOk, .error ⟨false, "db down"⟩⟩

/-- C3: counterexample — when the `db.record_trade` persistence write
raises, the exception propagates out of `_execute_for_subscriber` (the
write sits outside its try/except), so the unit does NOT return a
TradeResult, contradicting the claim that a persistence-write exception
is converted to API_ERROR at the unit boundary. -/
theorem C3_counterexample :
    (executeForSubscriber wSig wSub wEnvFullRecErr).1 =
      Except.error ⟨false, "db down"⟩ := by
  unfold executeForSubscriber
  rcases h : executeTradeSync wSig wSub wEnvFullRecErr.env with ⟨er | r, tr⟩ <;>
    simp [h, wEnvFullRecErr]

/-- C3 (amended): provided the persistence write succeeds, one invocation
of `_execute_for_subscriber` returns exactly one TradeResult and never
raises; every exception arising inside the threaded sync execution —
client construction, balance check, lookup, leverage set, sizing, order
submission — is converted to API_ERROR carrying the exception's message
(bare `str(e)` for a client-construction failure escaping the sync
function, prefixed "API error: "/"Error: " for failures inside its try
block).  An exception from the persistence write itself escapes the unit
(see the counterexample) and is absorbed only by the coordinator. -/
theorem C3_amended (sig : Signal) (sub : Subscriber) (envF : EnvFull)
    (hrec : envF.recordTrade = Except.ok ()) :
    ∃ r, (executeForSubscriber sig sub envF).1 = .ok r ∧
      (∀ e tr, executeTradeSync sig sub envF.env = (Except.error e, tr) →
        r.status = .API_ERROR ∧ r.message = e.msg) ∧
      (∀ e tr, runBody sig sub envF.env = (Except.error e, tr) →
        envF.env.ctorFail = none →
        r.status = .API_ERROR ∧
        r.message = (if e.mudrex then "API error: " ++ e.msg else "Error: " ++ e.msg)) := by
  rcases hs : executeTradeSync sig sub envF.env with ⟨er | res, tr0⟩
  · refine ⟨failResult sig sub .API_ERROR er.msg, ?_, ?_, ?_⟩
    · unfold executeForSubscriber
      simp [hs, hrec]
    · intro e tr h
      injection h with h1 h2
      injection h1 with h1
      subst h1
      exact ⟨rfl, rfl⟩
    · intro e tr h hctor
      exfalso
      unfold executeTradeSync at hs
      simp only [hctor, h] at hs
      injection hs with h1 h2
      exact Except.noConfusion h1
  · refine ⟨res, ?_, ?_, ?_⟩
    · unfold executeForSubscriber
      simp [hs, hrec]
    · intro e tr h
      injection h with h1 h2
      exact Except.noConfusion h1
    · intro e tr h hctor
      unfold executeTradeSync at hs
      simp only [hctor, h] at hs
      injection hs with h1 h2
      injection h1 with h1
      rw [← h1]
      exact ⟨rfl, rfl⟩

/-- Witness: C3 (amended) at a concrete run whose sync body raises at the
balance call, with the persistence write succeeding. -/
theorem C3_amended_witness :
    ∃ r, (executeForSubscriber wSig wSub
        ⟨{ wEnvOk with balance := .error ⟨true, "boom"⟩ }, .ok ()⟩).1 = .ok r ∧
      (∀ e tr, executeTradeSync wSig wSub
          { wEnvOk with balance := .error ⟨true, "boom"⟩ } = (Except.error e, tr) →
        r.status = .API_ERROR ∧ r.message = e.msg) ∧
      (∀ e tr, runBody wSig wSub
          { wEnvOk with balance := .error ⟨true, "boom"⟩ } = (Except.error e, tr) →
        ({ wEnvOk with balance := .error ⟨true, "boom"⟩ } : Env).ctorFail = none →
        r.status = .API_ERROR ∧
        r.message = (if e.mudrex then "API error: " ++ e.msg else "Error: " ++ e.msg)) :=
  C3_amended wSig wSub ⟨{ wEnvOk with balance := .error ⟨true, "boom"⟩ }, .ok ()⟩ rfl

/-- C8: when the order submission succeeds and the signal carries a
stop-loss or take-profit, a failed attachment (position listing raised,
no matching open position, or the risk-order call raised) still produces
a SUCCESS result whose message records that SL/TP was not applied. -/
theorem C8_risk_nonfatal (sig : Signal) (sub : Subscriber) (env : Env)
    (b qty v : ℚ) (asset : Asset) (order : MOrder)
    (hc : env.ctorFail = none) (hb : env.balance = .ok (some b))
    (hge : ¬ b < sub.tradeAmountUsdt) (ha : env.asset = .ok (some asset))
    (hl : env.leverageSet = .ok ()) (hcalc : env.calcOrder = .ok (qty, v))
    (hv : ¬ v < 5) (hq : ¬ qty < asset.minQuantity)
    (ho : env.createOrder = .ok (some order))
    (hrisk : (truthyQ sig.stopLoss || truthyQ sig.takeProfit) = true)
    (hfail : (riskAttempt sig env).1 = false) :
    ∃ tr, executeTradeSync sig sub env =
        (.ok (successResult sig sub qty v order (riskAttempt sig env)), tr) ∧
      (successResult sig sub qty v order (riskAttempt sig env)).status = .SUCCESS ∧
      ((∃ err, (successResult sig sub qty v order (riskAttempt sig env)).message =
          successBase sig qty v ++ " | SL/TP failed: " ++ err) ∨
        (successResult sig sub qty v order (riskAttempt sig env)).message =
          successBase sig qty v ++ " | No position for SL/TP") := by
  refine ⟨[Event.leverageSet sig.symbol (min sig.leverage sub.maxLeverage),
      orderEvent sig qty (min sig.leverage sub.maxLeverage)] ++
      (riskAttempt sig env).2.2, ?_, rfl, ?_⟩
  · unfold executeTradeSync runBody
    simp only [hc, hb, ha, hl, hcalc, ho, balanceOf]
    rw [if_neg hge, if_neg hv, if_neg hq]
  · have hmsg : (successResult sig sub qty v order (riskAttempt sig env)).message =
        successMessage sig qty v (riskAttempt sig env) := rfl
    rw [hmsg]
    unfold successMessage
    rw [if_pos hrisk, hfail]
    simp only [Bool.false_eq_true, if_false]
    cases hferr : (riskAttempt sig env).2.1 with
    | some err =>
      left
      exact ⟨err, rfl⟩
    | none =>
      right
      rfl

/-- A signal carrying a stop-loss. -/
def wSigSL : Signal := { wSig with stopLoss := some 95 }

/-- Witness: C8 applied to a run where no open position matches, so
attachment silently fails. -/
theorem C8_risk_nonfatal_witness :
    ∃ tr, executeTradeSync wSigSL wSub wEnvOk =
        (.ok (successResult wSigSL wSub (1/2) 50 ⟨"ord-1"⟩ (riskAttempt wSigSL wEnvOk)), tr) ∧
      (successResult wSigSL wSub (1/2) 50 ⟨"ord-1"⟩ (riskAttempt wSigSL wEnvOk)).status =
        TradeStatus.SUCCESS ∧
      ((∃ err, (successResult wSigSL wSub (1/2) 50 ⟨"ord-1"⟩
          (riskAttempt wSigSL wEnvOk)).message =
          successBase wSigSL (1/2) 50 ++ " | SL/TP failed: " ++ err) ∨
        (successResult wSigSL wSub (1/2) 50 ⟨"ord-1"⟩
          (riskAttempt wSigSL wEnvOk)).message =
          successBase wSigSL (1/2) 50 ++ " | No position for SL/TP") :=
  C8_risk_nonfatal wSigSL wSub wEnvOk 100 (1/2) 50 ⟨1/10, 0, 1000000⟩ ⟨"ord-1"⟩
    rfl rfl (by norm_num [wSub]) rfl rfl rfl (by norm_num) (by norm_num)
    rfl (by norm_num [wSigSL, wSig, truthyQ])
    (by norm_num [riskAttempt, wSigSL, wSig, wEnvOk, truthyQ])

/-! ### C2: total coverage with per-subscriber identity -/

lemma runBody_subscriberId {sig : Signal} {sub : Subscriber} {env : Env}
    {r : TradeResult} {tr : List Event} (h : runBody sig sub env = (.ok r, tr)) :
    r.subscriberId = sub.telegramId := by
  unfold runBody at h
  iterate 8 (all_goals try split at h)
  all_goals
    simp_all [insufficientResult, failResult, successResult]
  all_goals rw [← h.1]

lemma executeTradeSync_subscriberId {sig : Signal} {sub : Subscriber} {env : Env}
    {r : TradeResult} {tr : List Event}
    (h : executeTradeSync sig sub env = (.ok r, tr)) :
    r.subscriberId = sub.telegramId := by
  unfold executeTradeSync at h
  rcases hc : env.ctorFail with _ | e <;> simp only [hc] at h
  · rcases hrb : runBody sig sub env with ⟨er | r0, tr0⟩ <;> simp only [hrb] at h
    · injection h with h1 h2
      injection h1 with h1
      rw [← h1]
      rfl
    · injection h with h1 h2
      injection h1 with h1
      rw [← h1]
      exact runBody_subscriberId hrb
  · injection h with h1 h2
    exact Except.noConfusion h1

lemma executeForSubscriber_subscriberId {sig : Signal} {sub : Subscriber}
    {envF : EnvFull} {r : TradeResult} {tr : List Event}
    (h : executeForSubscriber sig sub envF = (.ok r, tr)) :
    r.subscriberId = sub.telegramId := by
  unfold executeForSubscriber at h
  rcases hs : executeTradeSync sig sub envF.env with ⟨er | res, tr0⟩ <;>
    simp only [hs] at h
  · rcases hr : envF.recordTrade with e | u <;> simp only [hr] at h
    · injection h with h1 h2
      exact Except.noConfusion h1
    · injection h with h1 h2
      injection h1 with h1
      rw [← h1]
      rfl
  · rcases hr : envF.recordTrade with e | u <;> simp only [hr] at h
    · injection h with h1 h2
      exact Except.noConfusion h1
    · injection h with h1 h2
      injection h1 with h1
      rw [← h1]
      exact executeTradeSync_subscriberId hs

/-- The non-empty broadcast's result list, written without lets. -/
lemma broadcastSignal_results (sig : Signal) (subs : List Subscriber)
    (envs : ℕ → EnvFull) (hne : subs ≠ []) :
    (broadcastSignal sig subs envs).1.1 =
      ((subs.filter (fun s => s.tradeMode = "AUTO")).enum.map
        (fun p => (p.2, executeForSubscriber sig p.2 (envs p.1)))).map
        (fun r => match r.2.1 with
          | .error e => gatherFallback r.1 e
          | .ok res => res) := by
  unfold broadcastSignal
  rw [if_neg hne]

/-- C2: the broadcast returns exactly one TradeResult per AUTO subscriber
and the result at index `i` carries the telegram id of the `i`-th AUTO
subscriber in input order, whatever the per-subscriber environments do —
including raising. -/
theorem C2_total_coverage (sig : Signal) (subs : List Subscriber) (envs : ℕ → EnvFull) :
    ((broadcastSignal sig subs envs).1.1).length =
      (subs.filter (fun s => s.tradeMode = "AUTO")).length ∧
    ∀ (i : ℕ) (r : TradeResult) (s : Subscriber),
      ((broadcastSignal sig subs envs).1.1)[i]? = some r →
      (subs.filter (fun s => s.tradeMode = "AUTO"))[i]? = some s →
      r.subscriberId = s.telegramId := by
  by_cases hs : subs = []
  · subst hs
    have hnil : (broadcastSignal sig [] envs).1.1 = [] := rfl
    refine ⟨by rw [hnil]; rfl, ?_⟩
    intro i r s hr hsu
    rw [hnil] at hr
    simp at hr
  · have hshape := broadcastSignal_results sig subs envs hs
    refine ⟨by rw [hshape]; simp [List.enum_length], ?_⟩
    intro i r s hr hsu
    rw [hshape] at hr
    rcases List.getElem?_eq_some.mp hr with ⟨hi, hri⟩
    rcases List.getElem?_eq_some.mp hsu with ⟨hj, hsj⟩
    simp only [List.getElem_map, List.getElem_enum] at hri
    rcases hefs : executeForSubscriber sig
        ((subs.filter (fun s => s.tradeMode = "AUTO"))[i]) (envs i) with ⟨er | res, tr⟩ <;>
      simp only [hefs] at hri
    · rw [← hri, ← hsj]
      rfl
    · rw [← hri, ← hsj]
      exact executeForSubscriber_subscriberId hefs

/-- Witness: C2 applied to a one-subscriber broadcast at index 0. -/
theorem C2_total_coverage_witness :
    ((broadcastSignal wSig [wSub] (fun _ => wEnvFullOk)).1.1).length =
      ([wSub].filter (fun s => s.tradeMode = "AUTO")).length ∧
    ∃ r, ((broadcastSignal wSig [wSub] (fun _ => wEnvFullOk)).1.1)[0]? = some r ∧
      r.subscriberId = wSub.telegramId := by
  have h := C2_total_coverage wSig [wSub] (fun _ => wEnvFullOk)
  refine ⟨h.1, ?_⟩
  have hauto : ([wSub].filter (fun s => s.tradeMode = "AUTO")) = [wSub] := by
    simp [wSub]
  have hlen : ((broadcastSignal wSig [wSub] (fun _ => wEnvFullOk)).1.1).length = 1 := by
    rw [h.1, hauto]
    rfl
  have hb0 : 0 < ((broadcastSignal wSig [wSub] (fun _ => wEnvFullOk)).1.1).length := by
    rw [hlen]
    norm_num
  have hr0 : ((broadcastSignal wSig [wSub] (fun _ => wEnvFullOk)).1.1)[0]? =
      some (((broadcastSignal wSig [wSub] (fun _ => wEnvFullOk)).1.1).get ⟨0, hb0⟩) :=
    List.getElem?_eq_getElem hb0
  refine ⟨_, hr0, ?_⟩
  have hs0 : ([wSub].filter (fun s => s.tradeMode = "AUTO"))[0]? = some wSub := by
    rw [hauto]
    rfl
  exact h.2 0 _ wSub hr0 hs0

end SignalBot
